/-
Verification of the encryption core of the encrypt-document-management repository
(src/encrypt.ts, plus the marker-less legacy variant in src/unnamed/part_000).

The code delegates the cipher work to the crypto-js library: AES in CBC mode with
PKCS#7 padding, driven by key material sliced out of a configuration string
(`iv = utf8(key[0:16])`, `cipher key = utf8(key[16:48])`), and a 4-byte magic
marker 00 02 73 DB prepended to the ciphertext.  This file gives a shallow
embedding of that pipeline at the byte/word level over `Nat`:

* crypto-js `WordArray`s are modelled as byte lists; 32-bit words are `Nat`s
  below 2^32 packed big-endian exactly as `wordArrayToArrayBuffer` reads them;
* the AES tables (`SBOX`, `INV_SBOX`, `SUB_MIX_i`, `INV_SUB_MIX_i`) follow the
  crypto-js generation loop: `SBOX`/`INV_SBOX` are the resulting 256-entry
  tables (written as 16 rows of 16 entries), and the `SUB_MIX`/`INV_SUB_MIX`
  entries are computed by the per-entry formulas of that loop;
* the key schedule, the table-based `_doCryptBlock`, the CBC chaining, the
  PKCS#7 `pad` and the (validation-free!) `unpad` of crypto-js are translated
  faithfully, including quirks: crypto-js accepts any key whose byte count is a
  multiple of 4 (the generalized Rijndael schedule runs, e.g., with a 20-byte
  key), and `unpad` blindly subtracts the last byte from the length, throwing a
  `RangeError` from `new ArrayBuffer(negative)` when that underflows;
* the embedded cipher is defined for key material whose byte count is a
  positive multiple of 4 with at least 4 words (`aesValidKey`); outside that
  range crypto-js silently computes with JavaScript `undefined`/`NaN`
  coercions, which this model does not cover and reports as
  `unsupportedKeyMaterial`.

The main results are a proved round-trip theorem (decrypt ∘ encrypt = id) for
the full pipeline, obtained from a complete inversion proof of the table-based
AES block transform, together with frame-format, error-behaviour and
counterexample theorems for the individual specification claims.
-/
import Mathlib

set_option maxRecDepth 10000

/-! ## Bit-level toolkit: big-endian byte packing of 32-bit words -/

def pack (a b c d : Nat) : Nat := (a <<< 24) ||| (b <<< 16) ||| (c <<< 8) ||| d

def byte3 (w : Nat) : Nat := w >>> 24

def byte2 (w : Nat) : Nat := (w >>> 16) &&& 0xff

def byte1 (w : Nat) : Nat := (w >>> 8) &&& 0xff

def byte0 (w : Nat) : Nat := w &&& 0xff

def IsW32 (w : Nat) : Prop := w < 2 ^ 32


theorem testBit_ge_false {x n j : Nat} (h : x < 2 ^ n) (hj : n ≤ j) : x.testBit j = false :=
  Nat.testBit_lt_two_pow (Nat.lt_of_lt_of_le h (Nat.pow_le_pow_right (by omega) hj))

theorem byte0_lt (w : Nat) : byte0 w < 256 := by
  have h : (w) &&& (255) ≤ (255) := Nat.and_le_right
  unfold byte0
  omega

theorem byte1_lt (w : Nat) : byte1 w < 256 := by
  have h : (w >>> 8) &&& (255) ≤ (255) := Nat.and_le_right
  unfold byte1
  omega

theorem byte2_lt (w : Nat) : byte2 w < 256 := by
  have h : (w >>> 16) &&& (255) ≤ (255) := Nat.and_le_right
  unfold byte2
  omega

theorem byte3_lt {w : Nat} (h : IsW32 w) : byte3 w < 256 := by
  unfold IsW32 at h
  unfold byte3
  rw [Nat.shiftRight_eq_div_pow]
  have h24 : (0:Nat) < 2 ^ 24 := by positivity
  rw [Nat.div_lt_iff_lt_mul h24]
  norm_num at h ⊢
  omega

theorem shiftLeft24_lt {a : Nat} (h : a < 256) : a <<< 24 < 2 ^ 32 := by
  rw [Nat.shiftLeft_eq]
  norm_num
  omega

theorem shiftLeft16_lt {a : Nat} (h : a < 256) : a <<< 16 < 2 ^ 32 := by
  rw [Nat.shiftLeft_eq]
  norm_num
  omega

theorem shiftLeft8_lt {a : Nat} (h : a < 256) : a <<< 8 < 2 ^ 32 := by
  rw [Nat.shiftLeft_eq]
  norm_num
  omega

theorem pack_lt {a b c d : Nat} (ha : a < 256) (hb : b < 256) (hc : c < 256) (hd : d < 256) :
    IsW32 (pack a b c d) := by
  unfold pack IsW32
  exact Nat.or_lt_two_pow
    (Nat.or_lt_two_pow
      (Nat.or_lt_two_pow (shiftLeft24_lt ha) (shiftLeft16_lt hb))
      (shiftLeft8_lt hc))
    (by omega)

theorem byte3_pack {a b c d : Nat} (ha : a < 256) (hb : b < 256) (hc : c < 256) (hd : d < 256) :
    byte3 (pack a b c d) = a := by
  apply Nat.eq_of_testBit_eq
  intro i
  simp only [byte3, pack, Nat.testBit_shiftRight, Nat.testBit_lor, Nat.testBit_shiftLeft,
    ge_iff_le]
  have e1 : 24 + i - 24 = i := by omega
  have e2 : 24 ≤ 24 + i := by omega
  have e3 : 16 ≤ 24 + i := by omega
  have e4 : 8 ≤ 24 + i := by omega
  rw [e1]
  simp only [e2, e3, e4, decide_True, Bool.true_and]
  have hb8 : (b : Nat).testBit (24 + i - 16) = false :=
    testBit_ge_false (show b < 2 ^ 8 by omega) (by omega)
  have hc8 : (c : Nat).testBit (24 + i - 8) = false :=
    testBit_ge_false (show c < 2 ^ 8 by omega) (by omega)
  have hd8 : (d : Nat).testBit (24 + i) = false :=
    testBit_ge_false (show d < 2 ^ 8 by omega) (by omega)
  rw [hb8, hc8, hd8]
  simp

theorem byte2_pack {a b c d : Nat} (ha : a < 256) (hb : b < 256) (hc : c < 256) (hd : d < 256) :
    byte2 (pack a b c d) = b := by
  apply Nat.eq_of_testBit_eq
  intro i
  simp only [byte2, pack, Nat.testBit_land, Nat.testBit_shiftRight, Nat.testBit_lor,
    Nat.testBit_shiftLeft, ge_iff_le]
  rw [show (255 : Nat) = 2 ^ 8 - 1 from rfl, Nat.testBit_two_pow_sub_one]
  by_cases hi : i < 8
  · have e2 : ¬ (24 ≤ 16 + i) := by omega
    have e3 : 16 ≤ 16 + i := by omega
    have e4 : 8 ≤ 16 + i := by omega
    have e1 : 16 + i - 16 = i := by omega
    simp only [e2, e3, e4, hi, decide_True, decide_False, Bool.false_and, Bool.true_and,
      Bool.false_or, Bool.and_true, e1]
    have hc8 : (c : Nat).testBit (16 + i - 8) = false :=
      testBit_ge_false (show c < 2 ^ 8 by omega) (by omega)
    have hd8 : (d : Nat).testBit (16 + i) = false :=
      testBit_ge_false (show d < 2 ^ 8 by omega) (by omega)
    rw [hc8, hd8]
    simp
  · have hb8 : (b : Nat).testBit i = false :=
      testBit_ge_false (show b < 2 ^ 8 by omega) (by omega)
    simp [hi, hb8]

theorem byte1_pack {a b c d : Nat} (ha : a < 256) (hb : b < 256) (hc : c < 256) (hd : d < 256) :
    byte1 (pack a b c d) = c := by
  apply Nat.eq_of_testBit_eq
  intro i
  simp only [byte1, pack, Nat.testBit_land, Nat.testBit_shiftRight, Nat.testBit_lor,
    Nat.testBit_shiftLeft, ge_iff_le]
  rw [show (255 : Nat) = 2 ^ 8 - 1 from rfl, Nat.testBit_two_pow_sub_one]
  by_cases hi : i < 8
  · have e2 : ¬ (24 ≤ 8 + i) := by omega
    have e3 : ¬ (16 ≤ 8 + i) := by omega
    have e4 : 8 ≤ 8 + i := by omega
    have e1 : 8 + i - 8 = i := by omega
    simp only [e2, e3, e4, hi, decide_True, decide_False, Bool.false_and, Bool.true_and,
      Bool.false_or, Bool.and_true, e1]
    have hd8 : (d : Nat).testBit (8 + i) = false :=
      testBit_ge_false (show d < 2 ^ 8 by omega) (by omega)
    rw [hd8]
    simp
  · have hc8 : (c : Nat).testBit i = false :=
      testBit_ge_false (show c < 2 ^ 8 by omega) (by omega)
    simp [hi, hc8]

theorem byte0_pack {a b c d : Nat} (ha : a < 256) (hb : b < 256) (hc : c < 256) (hd : d < 256) :
    byte0 (pack a b c d) = d := by
  apply Nat.eq_of_testBit_eq
  intro i
  simp only [byte0, pack, Nat.testBit_land, Nat.testBit_lor, Nat.testBit_shiftLeft, ge_iff_le]
  rw [show (255 : Nat) = 2 ^ 8 - 1 from rfl, Nat.testBit_two_pow_sub_one]
  by_cases hi : i < 8
  · have e2 : ¬ (24 ≤ i) := by omega
    have e3 : ¬ (16 ≤ i) := by omega
    have e4 : ¬ (8 ≤ i) := by omega
    simp [e2, e3, e4, hi]
  · have hd8 : (d : Nat).testBit i = false :=
      testBit_ge_false (show d < 2 ^ 8 by omega) (by omega)
    simp [hi, hd8]

theorem repack {w : Nat} (h : IsW32 w) : pack (byte3 w) (byte2 w) (byte1 w) (byte0 w) = w := by
  apply Nat.eq_of_testBit_eq
  intro i
  simp only [pack, byte3, byte2, byte1, byte0, Nat.testBit_lor, Nat.testBit_shiftLeft,
    Nat.testBit_land, Nat.testBit_shiftRight, ge_iff_le,
    show (255 : Nat) = 2 ^ 8 - 1 from rfl, Nat.testBit_two_pow_sub_one]
  by_cases h1 : i < 8
  · have e2 : ¬ (24 ≤ i) := by omega
    have e3 : ¬ (16 ≤ i) := by omega
    have e4 : ¬ (8 ≤ i) := by omega
    simp [e2, e3, e4, h1]
  · by_cases h2 : i < 16
    · have e2 : ¬ (24 ≤ i) := by omega
      have e3 : ¬ (16 ≤ i) := by omega
      have e4 : 8 ≤ i := by omega
      have e5 : i - 8 < 8 := by omega
      have e6 : 8 + (i - 8) = i := by omega
      simp only [e2, e3, e4, e5, h1, decide_True, decide_False, Bool.false_and, Bool.true_and,
        Bool.false_or, Bool.and_true, Bool.and_false, Bool.or_false, e6]
    · by_cases h3 : i < 24
      · have e2 : ¬ (24 ≤ i) := by omega
        have e3 : 16 ≤ i := by omega
        have e4 : 8 ≤ i := by omega
        have e5 : i - 16 < 8 := by omega
        have e5b : ¬ (i - 8 < 8) := by omega
        have e6 : 16 + (i - 16) = i := by omega
        simp only [e2, e3, e4, e5, e5b, h1, decide_True, decide_False, Bool.false_and,
          Bool.true_and, Bool.false_or, Bool.and_true, Bool.and_false, Bool.or_false, e6]
      · by_cases h4 : i < 32
        · have e2 : 24 ≤ i := by omega
          have e5 : ¬ (i - 16 < 8) := by omega
          have e5b : ¬ (i - 8 < 8) := by omega
          have e6 : 24 + (i - 24) = i := by omega
          simp only [e2, (by omega : 16 ≤ i), (by omega : 8 ≤ i), e5, e5b, h1, decide_True,
            decide_False, Bool.false_and, Bool.true_and, Bool.false_or, Bool.and_true,
            Bool.and_false, Bool.or_false, e6]
        · have hw : w.testBit i = false :=
            testBit_ge_false (show w < 2 ^ 32 from h) (by omega)
          have e6 : 24 + (i - 24) = i := by omega
          have e5 : ¬ (i - 16 < 8) := by omega
          have e5b : ¬ (i - 8 < 8) := by omega
          simp only [(by omega : 24 ≤ i), (by omega : 16 ≤ i), (by omega : 8 ≤ i), e5, e5b, h1,
            decide_True, decide_False, Bool.false_and, Bool.true_and, Bool.false_or,
            Bool.and_true, Bool.and_false, Bool.or_false, e6, hw]

theorem shiftRight_xor (x y n : Nat) : (x ^^^ y) >>> n = (x >>> n) ^^^ (y >>> n) := by
  apply Nat.eq_of_testBit_eq
  intro i
  simp [Nat.testBit_shiftRight, Nat.testBit_xor]

theorem byte3_xor (x y : Nat) : byte3 (x ^^^ y) = byte3 x ^^^ byte3 y := by
  unfold byte3
  exact shiftRight_xor x y 24

theorem byte2_xor (x y : Nat) : byte2 (x ^^^ y) = byte2 x ^^^ byte2 y := by
  unfold byte2
  rw [shiftRight_xor, Nat.and_xor_distrib_right]

theorem byte1_xor (x y : Nat) : byte1 (x ^^^ y) = byte1 x ^^^ byte1 y := by
  unfold byte1
  rw [shiftRight_xor, Nat.and_xor_distrib_right]

theorem byte0_xor (x y : Nat) : byte0 (x ^^^ y) = byte0 x ^^^ byte0 y := by
  unfold byte0
  rw [Nat.and_xor_distrib_right]

theorem byteExt {x y : Nat} (hx : IsW32 x) (hy : IsW32 y) (h3 : byte3 x = byte3 y)
    (h2 : byte2 x = byte2 y) (h1 : byte1 x = byte1 y) (h0 : byte0 x = byte0 y) : x = y := by
  rw [← repack hx, h3, h2, h1, h0, repack hy]

theorem xor_pack {a b c d e f g h : Nat} (ha : a < 256) (hb : b < 256) (hc : c < 256)
    (hd : d < 256) (he : e < 256) (hf : f < 256) (hg : g < 256) (hh : h < 256) :
    pack a b c d ^^^ pack e f g h = pack (a ^^^ e) (b ^^^ f) (c ^^^ g) (d ^^^ h) := by
  have hae : a ^^^ e < 256 := by
    have := Nat.xor_lt_two_pow (show a < 2 ^ 8 by omega) (show e < 2 ^ 8 by omega)
    omega
  have hbf : b ^^^ f < 256 := by
    have := Nat.xor_lt_two_pow (show b < 2 ^ 8 by omega) (show f < 2 ^ 8 by omega)
    omega
  have hcg : c ^^^ g < 256 := by
    have := Nat.xor_lt_two_pow (show c < 2 ^ 8 by omega) (show g < 2 ^ 8 by omega)
    omega
  have hdh : d ^^^ h < 256 := by
    have := Nat.xor_lt_two_pow (show d < 2 ^ 8 by omega) (show h < 2 ^ 8 by omega)
    omega
  apply byteExt
  · exact Nat.xor_lt_two_pow (pack_lt ha hb hc hd) (pack_lt he hf hg hh)
  · exact pack_lt hae hbf hcg hdh
  · rw [byte3_xor, byte3_pack ha hb hc hd, byte3_pack he hf hg hh,
      byte3_pack hae hbf hcg hdh]
  · rw [byte2_xor, byte2_pack ha hb hc hd, byte2_pack he hf hg hh,
      byte2_pack hae hbf hcg hdh]
  · rw [byte1_xor, byte1_pack ha hb hc hd, byte1_pack he hf hg hh,
      byte1_pack hae hbf hcg hdh]
  · rw [byte0_xor, byte0_pack ha hb hc hd, byte0_pack he hf hg hh,
      byte0_pack hae hbf hcg hdh]

theorem xor_cancel_right (x y : Nat) : (x ^^^ y) ^^^ y = x := by
  rw [Nat.xor_assoc, Nat.xor_self, Nat.xor_zero]

theorem xor_byte_lt {a b : Nat} (ha : a < 256) (hb : b < 256) : a ^^^ b < 256 := by
  have := Nat.xor_lt_two_pow (show a < 2 ^ 8 by omega) (show b < 2 ^ 8 by omega)
  omega

theorem xor_w32 {a b : Nat} (ha : IsW32 a) (hb : IsW32 b) : IsW32 (a ^^^ b) :=
  Nat.xor_lt_two_pow ha hb

/-! ## The crypto-js AES tables

`SBOX_ROWS` and `INV_SBOX_ROWS` are the 256-entry `SBOX` / `INV_SBOX` tables
produced by the crypto-js initialisation loop, written in decimal as 16 rows of
16 entries (row r holds entries 16*r .. 16*r+15); `sbox b` reads entry `b`.
`dfun` is the doubling table `d` of that loop, and the `SUB_MIX` /
`INV_SUB_MIX` tables are given by the loop body formulas
`t = (d[sx] * 0x101) ^ (sx * 0x1010100)` resp.
`t = (x8 * 0x1010101) ^ (x4 * 0x10001) ^ (x2 * 0x101) ^ (x * 0x1010100)`
followed by the word rotations `(t << k) | (t >>> 32 - k)` (as 32-bit values).
-/

def dfun (x : Nat) : Nat := if x < 128 then x <<< 1 else (x <<< 1) ^^^ 0x11b

def mask32 (x : Nat) : Nat := x &&& 0xFFFFFFFF

def SBOX_ROWS : List (List Nat) := [
  [99, 124, 119, 123, 242, 107, 111, 197, 48, 1, 103, 43, 254, 215, 171, 118],
  [202, 130, 201, 125, 250, 89, 71, 240, 173, 212, 162, 175, 156, 164, 114, 192],
  [183, 253, 147, 38, 54, 63, 247, 204, 52, 165, 229, 241, 113, 216, 49, 21],
  [4, 199, 35, 195, 24, 150, 5, 154, 7, 18, 128, 226, 235, 39, 178, 117],
  [9, 131, 44, 26, 27, 110, 90, 160, 82, 59, 214, 179, 41, 227, 47, 132],
  [83, 209, 0, 237, 32, 252, 177, 91, 106, 203, 190, 57, 74, 76, 88, 207],
  [208, 239, 170, 251, 67, 77, 51, 133, 69, 249, 2, 127, 80, 60, 159, 168],
  [81, 163, 64, 143, 146, 157, 56, 245, 188, 182, 218, 33, 16, 255, 243, 210],
  [205, 12, 19, 236, 95, 151, 68, 23, 196, 167, 126, 61, 100, 93, 25, 115],
  [96, 129, 79, 220, 34, 42, 144, 136, 70, 238, 184, 20, 222, 94, 11, 219],
  [224, 50, 58, 10, 73, 6, 36, 92, 194, 211, 172, 98, 145, 149, 228, 121],
  [231, 200, 55, 109, 141, 213, 78, 169, 108, 86, 244, 234, 101, 122, 174, 8],
  [186, 120, 37, 46, 28, 166, 180, 198, 232, 221, 116, 31, 75, 189, 139, 138],
  [112, 62, 181, 102, 72, 3, 246, 14, 97, 53, 87, 185, 134, 193, 29, 158],
  [225, 248, 152, 17, 105, 217, 142, 148, 155, 30, 135, 233, 206, 85, 40, 223],
  [140, 161, 137, 13, 191, 230, 66, 104, 65, 153, 45, 15, 176, 84, 187, 22]]

def INV_SBOX_ROWS : List (List Nat) := [
  [82, 9, 106, 213, 48, 54, 165, 56, 191, 64, 163, 158, 129, 243, 215, 251],
  [124, 227, 57, 130, 155, 47, 255, 135, 52, 142, 67, 68, 196, 222, 233, 203],
  [84, 123, 148, 50, 166, 194, 35, 61, 238, 76, 149, 11, 66, 250, 195, 78],
  [8, 46, 161, 102, 40, 217, 36, 178, 118, 91, 162, 73, 109, 139, 209, 37],
  [114, 248, 246, 100, 134, 104, 152, 22, 212, 164, 92, 204, 93, 101, 182, 146],
  [108, 112, 72, 80, 253, 237, 185, 218, 94, 21, 70, 87, 167, 141, 157, 132],
  [144, 216, 171, 0, 140, 188, 211, 10, 247, 228, 88, 5, 184, 179, 69, 6],
  [208, 44, 30, 143, 202, 63, 15, 2, 193, 175, 189, 3, 1, 19, 138, 107],
  [58, 145, 17, 65, 79, 103, 220, 234, 151, 242, 207, 206, 240, 180, 230, 115],
  [150, 172, 116, 34, 231, 173, 53, 133, 226, 249, 55, 232, 28, 117, 223, 110],
  [71, 241, 26, 113, 29, 41, 197, 137, 111, 183, 98, 14, 170, 24, 190, 27],
  [252, 86, 62, 75, 198, 210, 121, 32, 154, 219, 192, 254, 120, 205, 90, 244],
  [31, 221, 168, 51, 136, 7, 199, 49, 177, 18, 16, 89, 39, 128, 236, 95],
  [96, 81, 127, 169, 25, 181, 74, 13, 45, 229, 122, 159, 147, 201, 156, 239],
  [160, 224, 59, 77, 174, 42, 245, 176, 200, 235, 187, 60, 131, 83, 153, 97],
  [23, 43, 4, 126, 186, 119, 214, 38, 225, 105, 20, 99, 85, 33, 12, 125]]

def sbox (b : Nat) : Nat := (SBOX_ROWS.getD (b / 16) []).getD (b % 16) 0

def invSbox (b : Nat) : Nat := (INV_SBOX_ROWS.getD (b / 16) []).getD (b % 16) 0

def subMixT (b : Nat) : Nat :=
  (dfun (sbox b) * 0x101) ^^^ (sbox b * 0x1010100)

def invSubMixT (b : Nat) : Nat :=
  (dfun (dfun (dfun (invSbox b))) * 0x1010101) ^^^ (dfun (dfun (invSbox b)) * 0x10001) ^^^
    (dfun (invSbox b) * 0x101) ^^^ (invSbox b * 0x1010100)

def SM0 (b : Nat) : Nat := mask32 (subMixT b <<< 24) ||| (subMixT b >>> 8)

def SM1 (b : Nat) : Nat := mask32 (subMixT b <<< 16) ||| (subMixT b >>> 16)

def SM2 (b : Nat) : Nat := mask32 (subMixT b <<< 8) ||| (subMixT b >>> 24)

def SM3 (b : Nat) : Nat := subMixT b

def ISM0 (b : Nat) : Nat := mask32 (invSubMixT b <<< 24) ||| (invSubMixT b >>> 8)

def ISM1 (b : Nat) : Nat := mask32 (invSubMixT b <<< 16) ||| (invSubMixT b >>> 16)

def ISM2 (b : Nat) : Nat := mask32 (invSubMixT b <<< 8) ||| (invSubMixT b >>> 24)

def ISM3 (b : Nat) : Nat := invSubMixT b

def RCON : List Nat := [0, 1, 2, 4, 8, 16, 32, 64, 128, 27, 54]

/-! GF(2^8) multiplications by the MixColumns and InvMixColumns coefficients,
expressed through the doubling map `dfun`. -/

def g2 (x : Nat) : Nat := dfun x

def g3 (x : Nat) : Nat := dfun x ^^^ x

def g9 (x : Nat) : Nat := dfun (dfun (dfun x)) ^^^ x

def g11 (x : Nat) : Nat := dfun (dfun (dfun x)) ^^^ dfun x ^^^ x

def g13 (x : Nat) : Nat := dfun (dfun (dfun x)) ^^^ dfun (dfun x) ^^^ x

def g14 (x : Nat) : Nat := dfun (dfun (dfun x)) ^^^ dfun (dfun x) ^^^ dfun x

/-! ## Facts about the tables, established by finite checking -/

theorem all_range_spec (f : Nat → Bool) {n : Nat} (h : (List.range n).all f = true)
    {x : Nat} (hx : x < n) : f x = true :=
  List.all_eq_true.mp h x (List.mem_range.mpr hx)

theorem sbox_lt (b : Nat) : sbox b < 256 := by
  by_cases hb : b < 256
  · exact of_decide_eq_true (all_range_spec (fun b => decide (sbox b < 256)) (by decide) hb)
  · have hlen : SBOX_ROWS.length = 16 := rfl
    have hrow : SBOX_ROWS.getD (b / 16) [] = [] := by
      rw [List.getD_eq_getElem?_getD, List.getElem?_eq_none (by omega), Option.getD_none]
    unfold sbox
    rw [hrow]
    norm_num [List.getD_eq_getElem?_getD]

theorem invSbox_lt (b : Nat) : invSbox b < 256 := by
  by_cases hb : b < 256
  · exact of_decide_eq_true
      (all_range_spec (fun b => decide (invSbox b < 256)) (by decide) hb)
  · have hlen : INV_SBOX_ROWS.length = 16 := rfl
    have hrow : INV_SBOX_ROWS.getD (b / 16) [] = [] := by
      rw [List.getD_eq_getElem?_getD, List.getElem?_eq_none (by omega), Option.getD_none]
    unfold invSbox
    rw [hrow]
    norm_num [List.getD_eq_getElem?_getD]

theorem invSbox_sbox {b : Nat} (hb : b < 256) : invSbox (sbox b) = b :=
  of_decide_eq_true
    (all_range_spec (fun b => decide (invSbox (sbox b) = b)) (by decide) hb)

theorem dfun_lt {x : Nat} (hx : x < 256) : dfun x < 256 :=
  of_decide_eq_true (all_range_spec (fun x => decide (dfun x < 256)) (by decide) hx)

/-! ## Linearity of the GF(2^8) doubling map over XOR -/

theorem xor_shiftLeft (x y n : Nat) : (x ^^^ y) <<< n = (x <<< n) ^^^ (y <<< n) := by
  apply Nat.eq_of_testBit_eq
  intro i
  simp [Nat.testBit_shiftLeft, Nat.testBit_xor, Bool.and_xor_distrib_left]

theorem xor_xor_pair (x y c : Nat) : (x ^^^ c) ^^^ (y ^^^ c) = x ^^^ y := by
  have h : (x ^^^ c) ^^^ (y ^^^ c) = (x ^^^ y) ^^^ (c ^^^ c) := by ac_rfl
  rw [h, Nat.xor_self, Nat.xor_zero]

theorem testBit7_eq {x : Nat} : x.testBit 7 = decide (128 ≤ x % 256) := by
  rw [Nat.testBit_to_div_mod]
  have h7 : (2 : Nat) ^ 7 = 128 := by norm_num
  rw [h7]
  exact decide_eq_decide.mpr (by omega)

theorem xor_lt_128 {a b : Nat} (ha : a < 256) (hb : b < 256)
    (hiff : 128 ≤ a ↔ 128 ≤ b) : a ^^^ b < 128 := by
  have hab : a ^^^ b < 256 := xor_byte_lt ha hb
  have ht : (a ^^^ b).testBit 7 = ((a.testBit 7).xor (b.testBit 7)) := Nat.testBit_xor a b 7
  rw [testBit7_eq, testBit7_eq, testBit7_eq] at ht
  rw [Nat.mod_eq_of_lt ha, Nat.mod_eq_of_lt hb, Nat.mod_eq_of_lt hab] at ht
  by_cases h1 : 128 ≤ a
  · have h2 : 128 ≤ b := hiff.mp h1
    simp [h1, h2] at ht
    omega
  · have h2 : ¬ 128 ≤ b := fun h => h1 (hiff.mpr h)
    simp [h1, h2] at ht
    omega

theorem xor_ge_128 {a b : Nat} (ha : a < 256) (hb : b < 256)
    (hne : ¬ (128 ≤ a ↔ 128 ≤ b)) : 128 ≤ a ^^^ b := by
  have hab : a ^^^ b < 256 := xor_byte_lt ha hb
  have ht : (a ^^^ b).testBit 7 = ((a.testBit 7).xor (b.testBit 7)) := Nat.testBit_xor a b 7
  rw [testBit7_eq, testBit7_eq, testBit7_eq] at ht
  rw [Nat.mod_eq_of_lt ha, Nat.mod_eq_of_lt hb, Nat.mod_eq_of_lt hab] at ht
  by_cases h1 : 128 ≤ a
  · have h2 : ¬ 128 ≤ b := fun h => hne ⟨fun _ => h, fun _ => h1⟩
    simp [h1, h2] at ht
    omega
  · have h2 : 128 ≤ b := by
      rcases Nat.lt_or_ge b 128 with h | h
      · exact absurd ⟨fun ha2 => absurd ha2 h1, fun hb2 => absurd hb2 (by omega)⟩ hne
      · exact h
    simp [h1, h2] at ht
    omega

theorem dfun_xor {a b : Nat} (ha : a < 256) (hb : b < 256) :
    dfun (a ^^^ b) = dfun a ^^^ dfun b := by
  by_cases h1 : a < 128
  · by_cases h2 : b < 128
    · have hab : a ^^^ b < 128 :=
        Nat.xor_lt_two_pow (show a < 2 ^ 7 by omega) (show b < 2 ^ 7 by omega)
      rw [dfun, dfun, dfun, if_pos h1, if_pos h2, if_pos hab, xor_shiftLeft]
    · have hab : ¬ (a ^^^ b < 128) := by
        have := xor_ge_128 ha hb (by omega)
        omega
      rw [dfun, dfun, dfun, if_pos h1, if_neg h2, if_neg hab, xor_shiftLeft]
      ac_rfl
  · by_cases h2 : b < 128
    · have hab : ¬ (a ^^^ b < 128) := by
        have := xor_ge_128 ha hb (by omega)
        omega
      rw [dfun, dfun, dfun, if_neg h1, if_pos h2, if_neg hab, xor_shiftLeft]
      ac_rfl
    · have hab : a ^^^ b < 128 := xor_lt_128 ha hb (by omega)
      rw [dfun, dfun, dfun, if_neg h1, if_neg h2, if_pos hab, xor_xor_pair, xor_shiftLeft]

/-! Bounds and linearity for the coefficient multiplications. -/

theorem g2_lt {x : Nat} (hx : x < 256) : g2 x < 256 := dfun_lt hx

theorem g3_lt {x : Nat} (hx : x < 256) : g3 x < 256 := xor_byte_lt (dfun_lt hx) hx

theorem g9_lt {x : Nat} (hx : x < 256) : g9 x < 256 :=
  xor_byte_lt (dfun_lt (dfun_lt (dfun_lt hx))) hx

theorem g11_lt {x : Nat} (hx : x < 256) : g11 x < 256 :=
  xor_byte_lt (xor_byte_lt (dfun_lt (dfun_lt (dfun_lt hx))) (dfun_lt hx)) hx

theorem g13_lt {x : Nat} (hx : x < 256) : g13 x < 256 :=
  xor_byte_lt (xor_byte_lt (dfun_lt (dfun_lt (dfun_lt hx))) (dfun_lt (dfun_lt hx))) hx

theorem g14_lt {x : Nat} (hx : x < 256) : g14 x < 256 :=
  xor_byte_lt (xor_byte_lt (dfun_lt (dfun_lt (dfun_lt hx))) (dfun_lt (dfun_lt hx)))
    (dfun_lt hx)

theorem dfun2_xor {a b : Nat} (ha : a < 256) (hb : b < 256) :
    dfun (dfun (a ^^^ b)) = dfun (dfun a) ^^^ dfun (dfun b) := by
  rw [dfun_xor ha hb, dfun_xor (dfun_lt ha) (dfun_lt hb)]

theorem dfun3_xor {a b : Nat} (ha : a < 256) (hb : b < 256) :
    dfun (dfun (dfun (a ^^^ b))) = dfun (dfun (dfun a)) ^^^ dfun (dfun (dfun b)) := by
  rw [dfun2_xor ha hb, dfun_xor (dfun_lt (dfun_lt ha)) (dfun_lt (dfun_lt hb))]

theorem g2_xor {a b : Nat} (ha : a < 256) (hb : b < 256) :
    g2 (a ^^^ b) = g2 a ^^^ g2 b := dfun_xor ha hb

theorem g3_xor {a b : Nat} (ha : a < 256) (hb : b < 256) :
    g3 (a ^^^ b) = g3 a ^^^ g3 b := by
  simp only [g3]
  rw [dfun_xor ha hb]
  ac_rfl

theorem g9_xor {a b : Nat} (ha : a < 256) (hb : b < 256) :
    g9 (a ^^^ b) = g9 a ^^^ g9 b := by
  simp only [g9]
  rw [dfun3_xor ha hb]
  ac_rfl

theorem g11_xor {a b : Nat} (ha : a < 256) (hb : b < 256) :
    g11 (a ^^^ b) = g11 a ^^^ g11 b := by
  simp only [g11]
  rw [dfun3_xor ha hb, dfun_xor ha hb]
  ac_rfl

theorem g13_xor {a b : Nat} (ha : a < 256) (hb : b < 256) :
    g13 (a ^^^ b) = g13 a ^^^ g13 b := by
  simp only [g13]
  rw [dfun3_xor ha hb, dfun2_xor ha hb]
  ac_rfl

theorem g14_xor {a b : Nat} (ha : a < 256) (hb : b < 256) :
    g14 (a ^^^ b) = g14 a ^^^ g14 b := by
  simp only [g14]
  rw [dfun3_xor ha hb, dfun2_xor ha hb, dfun_xor ha hb]
  ac_rfl

/-! ## Closed forms of the SUB_MIX / INV_SUB_MIX entries (finite checking) -/

theorem sm0_spec {b : Nat} (hb : b < 256) :
    SM0 b = pack (g2 (sbox b)) (sbox b) (sbox b) (g3 (sbox b)) :=
  of_decide_eq_true (all_range_spec
    (fun b => decide (SM0 b = pack (g2 (sbox b)) (sbox b) (sbox b) (g3 (sbox b))))
    (by decide) hb)

theorem sm1_spec {b : Nat} (hb : b < 256) :
    SM1 b = pack (g3 (sbox b)) (g2 (sbox b)) (sbox b) (sbox b) :=
  of_decide_eq_true (all_range_spec
    (fun b => decide (SM1 b = pack (g3 (sbox b)) (g2 (sbox b)) (sbox b) (sbox b)))
    (by decide) hb)

theorem sm2_spec {b : Nat} (hb : b < 256) :
    SM2 b = pack (sbox b) (g3 (sbox b)) (g2 (sbox b)) (sbox b) :=
  of_decide_eq_true (all_range_spec
    (fun b => decide (SM2 b = pack (sbox b) (g3 (sbox b)) (g2 (sbox b)) (sbox b)))
    (by decide) hb)

theorem sm3_spec {b : Nat} (hb : b < 256) :
    SM3 b = pack (sbox b) (sbox b) (g3 (sbox b)) (g2 (sbox b)) :=
  of_decide_eq_true (all_range_spec
    (fun b => decide (SM3 b = pack (sbox b) (sbox b) (g3 (sbox b)) (g2 (sbox b))))
    (by decide) hb)

theorem ism0_spec {b : Nat} (hb : b < 256) :
    ISM0 b = pack (g14 (invSbox b)) (g9 (invSbox b)) (g13 (invSbox b)) (g11 (invSbox b)) :=
  of_decide_eq_true (all_range_spec
    (fun b => decide
      (ISM0 b = pack (g14 (invSbox b)) (g9 (invSbox b)) (g13 (invSbox b)) (g11 (invSbox b))))
    (by decide) hb)

theorem ism1_spec {b : Nat} (hb : b < 256) :
    ISM1 b = pack (g11 (invSbox b)) (g14 (invSbox b)) (g9 (invSbox b)) (g13 (invSbox b)) :=
  of_decide_eq_true (all_range_spec
    (fun b => decide
      (ISM1 b = pack (g11 (invSbox b)) (g14 (invSbox b)) (g9 (invSbox b)) (g13 (invSbox b))))
    (by decide) hb)

theorem ism2_spec {b : Nat} (hb : b < 256) :
    ISM2 b = pack (g13 (invSbox b)) (g11 (invSbox b)) (g14 (invSbox b)) (g9 (invSbox b)) :=
  of_decide_eq_true (all_range_spec
    (fun b => decide
      (ISM2 b = pack (g13 (invSbox b)) (g11 (invSbox b)) (g14 (invSbox b)) (g9 (invSbox b))))
    (by decide) hb)

theorem ism3_spec {b : Nat} (hb : b < 256) :
    ISM3 b = pack (g9 (invSbox b)) (g13 (invSbox b)) (g11 (invSbox b)) (g14 (invSbox b)) :=
  of_decide_eq_true (all_range_spec
    (fun b => decide
      (ISM3 b = pack (g9 (invSbox b)) (g13 (invSbox b)) (g11 (invSbox b)) (g14 (invSbox b))))
    (by decide) hb)

theorem ism0_sbox_spec {a : Nat} (ha : a < 256) :
    ISM0 (sbox a) = pack (g14 a) (g9 a) (g13 a) (g11 a) := by
  rw [ism0_spec (sbox_lt a), invSbox_sbox ha]

theorem ism1_sbox_spec {a : Nat} (ha : a < 256) :
    ISM1 (sbox a) = pack (g11 a) (g14 a) (g9 a) (g13 a) := by
  rw [ism1_spec (sbox_lt a), invSbox_sbox ha]

theorem ism2_sbox_spec {a : Nat} (ha : a < 256) :
    ISM2 (sbox a) = pack (g13 a) (g11 a) (g14 a) (g9 a) := by
  rw [ism2_spec (sbox_lt a), invSbox_sbox ha]

theorem ism3_sbox_spec {a : Nat} (ha : a < 256) :
    ISM3 (sbox a) = pack (g9 a) (g13 a) (g11 a) (g14 a) := by
  rw [ism3_spec (sbox_lt a), invSbox_sbox ha]

/-! ## The sixteen InvMixColumns ∘ MixColumns coefficient identities -/

theorem coef_r0_a {x : Nat} (hx : x < 256) :
    g14 (g2 x) ^^^ g11 x ^^^ g13 x ^^^ g9 (g3 x) = x :=
  of_decide_eq_true (all_range_spec
    (fun x => decide (g14 (g2 x) ^^^ g11 x ^^^ g13 x ^^^ g9 (g3 x) = x)) (by decide) hx)

theorem coef_r0_b {x : Nat} (hx : x < 256) :
    g14 (g3 x) ^^^ g11 (g2 x) ^^^ g13 x ^^^ g9 x = 0 :=
  of_decide_eq_true (all_range_spec
    (fun x => decide (g14 (g3 x) ^^^ g11 (g2 x) ^^^ g13 x ^^^ g9 x = 0)) (by decide) hx)

theorem coef_r0_c {x : Nat} (hx : x < 256) :
    g14 x ^^^ g11 (g3 x) ^^^ g13 (g2 x) ^^^ g9 x = 0 :=
  of_decide_eq_true (all_range_spec
    (fun x => decide (g14 x ^^^ g11 (g3 x) ^^^ g13 (g2 x) ^^^ g9 x = 0)) (by decide) hx)

theorem coef_r0_d {x : Nat} (hx : x < 256) :
    g14 x ^^^ g11 x ^^^ g13 (g3 x) ^^^ g9 (g2 x) = 0 :=
  of_decide_eq_true (all_range_spec
    (fun x => decide (g14 x ^^^ g11 x ^^^ g13 (g3 x) ^^^ g9 (g2 x) = 0)) (by decide) hx)

theorem coef_r1_a {x : Nat} (hx : x < 256) :
    g9 (g2 x) ^^^ g14 x ^^^ g11 x ^^^ g13 (g3 x) = 0 :=
  of_decide_eq_true (all_range_spec
    (fun x => decide (g9 (g2 x) ^^^ g14 x ^^^ g11 x ^^^ g13 (g3 x) = 0)) (by decide) hx)

theorem coef_r1_b {x : Nat} (hx : x < 256) :
    g9 (g3 x) ^^^ g14 (g2 x) ^^^ g11 x ^^^ g13 x = x :=
  of_decide_eq_true (all_range_spec
    (fun x => decide (g9 (g3 x) ^^^ g14 (g2 x) ^^^ g11 x ^^^ g13 x = x)) (by decide) hx)

theorem coef_r1_c {x : Nat} (hx : x < 256) :
    g9 x ^^^ g14 (g3 x) ^^^ g11 (g2 x) ^^^ g13 x = 0 :=
  of_decide_eq_true (all_range_spec
    (fun x => decide (g9 x ^^^ g14 (g3 x) ^^^ g11 (g2 x) ^^^ g13 x = 0)) (by decide) hx)

theorem coef_r1_d {x : Nat} (hx : x < 256) :
    g9 x ^^^ g14 x ^^^ g11 (g3 x) ^^^ g13 (g2 x) = 0 :=
  of_decide_eq_true (all_range_spec
    (fun x => decide (g9 x ^^^ g14 x ^^^ g11 (g3 x) ^^^ g13 (g2 x) = 0)) (by decide) hx)

theorem coef_r2_a {x : Nat} (hx : x < 256) :
    g13 (g2 x) ^^^ g9 x ^^^ g14 x ^^^ g11 (g3 x) = 0 :=
  of_decide_eq_true (all_range_spec
    (fun x => decide (g13 (g2 x) ^^^ g9 x ^^^ g14 x ^^^ g11 (g3 x) = 0)) (by decide) hx)

theorem coef_r2_b {x : Nat} (hx : x < 256) :
    g13 (g3 x) ^^^ g9 (g2 x) ^^^ g14 x ^^^ g11 x = 0 :=
  of_decide_eq_true (all_range_spec
    (fun x => decide (g13 (g3 x) ^^^ g9 (g2 x) ^^^ g14 x ^^^ g11 x = 0)) (by decide) hx)

theorem coef_r2_c {x : Nat} (hx : x < 256) :
    g13 x ^^^ g9 (g3 x) ^^^ g14 (g2 x) ^^^ g11 x = x :=
  of_decide_eq_true (all_range_spec
    (fun x => decide (g13 x ^^^ g9 (g3 x) ^^^ g14 (g2 x) ^^^ g11 x = x)) (by decide) hx)

theorem coef_r2_d {x : Nat} (hx : x < 256) :
    g13 x ^^^ g9 x ^^^ g14 (g3 x) ^^^ g11 (g2 x) = 0 :=
  of_decide_eq_true (all_range_spec
    (fun x => decide (g13 x ^^^ g9 x ^^^ g14 (g3 x) ^^^ g11 (g2 x) = 0)) (by decide) hx)

theorem coef_r3_a {x : Nat} (hx : x < 256) :
    g11 (g2 x) ^^^ g13 x ^^^ g9 x ^^^ g14 (g3 x) = 0 :=
  of_decide_eq_true (all_range_spec
    (fun x => decide (g11 (g2 x) ^^^ g13 x ^^^ g9 x ^^^ g14 (g3 x) = 0)) (by decide) hx)

theorem coef_r3_b {x : Nat} (hx : x < 256) :
    g11 (g3 x) ^^^ g13 (g2 x) ^^^ g9 x ^^^ g14 x = 0 :=
  of_decide_eq_true (all_range_spec
    (fun x => decide (g11 (g3 x) ^^^ g13 (g2 x) ^^^ g9 x ^^^ g14 x = 0)) (by decide) hx)

theorem coef_r3_c {x : Nat} (hx : x < 256) :
    g11 x ^^^ g13 (g3 x) ^^^ g9 (g2 x) ^^^ g14 x = 0 :=
  of_decide_eq_true (all_range_spec
    (fun x => decide (g11 x ^^^ g13 (g3 x) ^^^ g9 (g2 x) ^^^ g14 x = 0)) (by decide) hx)

theorem coef_r3_d {x : Nat} (hx : x < 256) :
    g11 x ^^^ g13 x ^^^ g9 (g3 x) ^^^ g14 (g2 x) = x :=
  of_decide_eq_true (all_range_spec
    (fun x => decide (g11 x ^^^ g13 x ^^^ g9 (g3 x) ^^^ g14 (g2 x) = x)) (by decide) hx)

/-! ## 32-bit bounds for the table outputs -/

theorem shiftRight_w32 {x : Nat} (h : IsW32 x) (n : Nat) : IsW32 (x >>> n) := by
  unfold IsW32 at h ⊢
  rw [Nat.shiftRight_eq_div_pow]
  exact Nat.lt_of_le_of_lt (Nat.div_le_self x (2 ^ n)) h

theorem mask32_w32 (x : Nat) : IsW32 (mask32 x) := by
  have h : (x) &&& (0xFFFFFFFF) ≤ (0xFFFFFFFF) := Nat.and_le_right
  unfold mask32 IsW32
  norm_num
  omega

theorem subMixT_w32 (b : Nat) : IsW32 (subMixT b) := by
  have h1 : dfun (sbox b) < 256 := dfun_lt (sbox_lt b)
  have h2 : sbox b < 256 := sbox_lt b
  apply xor_w32 <;> unfold IsW32 <;> norm_num <;> omega

theorem invSubMixT_w32 (b : Nat) : IsW32 (invSubMixT b) := by
  have h0 : invSbox b < 256 := invSbox_lt b
  have h1 : dfun (invSbox b) < 256 := dfun_lt h0
  have h2 : dfun (dfun (invSbox b)) < 256 := dfun_lt h1
  have h3 : dfun (dfun (dfun (invSbox b))) < 256 := dfun_lt h2
  apply xor_w32
  apply xor_w32
  apply xor_w32
  all_goals unfold IsW32
  all_goals norm_num
  all_goals omega

theorem SM0_w32 (b : Nat) : IsW32 (SM0 b) :=
  Nat.or_lt_two_pow (mask32_w32 _) (shiftRight_w32 (subMixT_w32 b) 8)

theorem SM1_w32 (b : Nat) : IsW32 (SM1 b) :=
  Nat.or_lt_two_pow (mask32_w32 _) (shiftRight_w32 (subMixT_w32 b) 16)

theorem SM2_w32 (b : Nat) : IsW32 (SM2 b) :=
  Nat.or_lt_two_pow (mask32_w32 _) (shiftRight_w32 (subMixT_w32 b) 24)

theorem SM3_w32 (b : Nat) : IsW32 (SM3 b) := subMixT_w32 b

theorem ISM0_w32 (b : Nat) : IsW32 (ISM0 b) :=
  Nat.or_lt_two_pow (mask32_w32 _) (shiftRight_w32 (invSubMixT_w32 b) 8)

theorem ISM1_w32 (b : Nat) : IsW32 (ISM1 b) :=
  Nat.or_lt_two_pow (mask32_w32 _) (shiftRight_w32 (invSubMixT_w32 b) 16)

theorem ISM2_w32 (b : Nat) : IsW32 (ISM2 b) :=
  Nat.or_lt_two_pow (mask32_w32 _) (shiftRight_w32 (invSubMixT_w32 b) 24)

theorem ISM3_w32 (b : Nat) : IsW32 (ISM3 b) := invSubMixT_w32 b

/-! ## The AES key schedule of crypto-js

`keyExpansion` translates the `_doReset` loop of crypto-js AES: entry `ksRow`
copies a key word while `ksRow < keySize` and otherwise combines the previous
entry (rotated/substituted on the `keySize` boundary, substituted at offset 4
for `keySize > 6`) with the entry `keySize` rows back.  `invKeyExpansion`
translates the inverse-schedule loop, whose entry at `invKsRow` reads only the
forward schedule.  crypto-js runs these loops for any `keySize = sigBytes / 4`;
they are integer computations exactly when the key byte count is a multiple
of 4 (see `aesValidKey` below). -/

def subWord (w : Nat) : Nat :=
  pack (sbox (byte3 w)) (sbox (byte2 w)) (sbox (byte1 w)) (sbox (byte0 w))

def invSubWord (w : Nat) : Nat :=
  pack (invSbox (byte3 w)) (invSbox (byte2 w)) (invSbox (byte1 w)) (invSbox (byte0 w))

def rotl8 (w : Nat) : Nat := mask32 (w <<< 8) ||| (w >>> 24)

def ksStep (keyWords : List Nat) (keySize : Nat) (ks : List Nat) : List Nat :=
  let ksRow := ks.length
  if ksRow < keySize then ks ++ [keyWords.getD ksRow 0]
  else
    let tp := ks.getD (ksRow - 1) 0
    let t :=
      if ksRow % keySize == 0 then
        (subWord (rotl8 tp)) ^^^ ((RCON.getD (ksRow / keySize) 0) <<< 24)
      else if keySize > 6 && ksRow % keySize == 4 then
        subWord tp
      else tp
    ks ++ [(ks.getD (ksRow - keySize) 0) ^^^ t]

def keyExpansionAux (keyWords : List Nat) (keySize : Nat) : Nat → List Nat → List Nat
  | 0, ks => ks
  | n + 1, ks => keyExpansionAux keyWords keySize n (ksStep keyWords keySize ks)

def keyExpansion (keyWords : List Nat) (keySize : Nat) : List Nat :=
  keyExpansionAux keyWords keySize ((keySize + 6 + 1) * 4) []

def invKsEntry (ks : List Nat) (ksRows : Nat) (invKsRow : Nat) : Nat :=
  let ksRow := ksRows - invKsRow
  let t := if invKsRow % 4 != 0 then ks.getD ksRow 0 else ks.getD (ksRow - 4) 0
  if invKsRow < 4 || ksRow ≤ 4 then t
  else ISM0 (sbox (byte3 t)) ^^^ ISM1 (sbox (byte2 t)) ^^^
    ISM2 (sbox (byte1 t)) ^^^ ISM3 (sbox (byte0 t))

def invKeyExpansion (ks : List Nat) (ksRows : Nat) : List Nat :=
  (List.range ksRows).map (invKsEntry ks ksRows)

/-! ## The block transform `_doCryptBlock`

A `Quad` is one 16-byte cipher block as the four 32-bit words crypto-js
operates on.  `midStep`/`finalStep` are one main round and the final round of
`_doCryptBlock` with the forward tables; `invMidStep`/`invFinalStep` are the
same code with the inverse tables, and `decryptBlk` adds the swap of the 2nd
and 4th state words that crypto-js `decryptBlock` performs before and after.
The key schedule rows are consumed in order (`ksRow++`), i.e. quad by quad. -/

structure Quad where
  w0 : Nat
  w1 : Nat
  w2 : Nat
  w3 : Nat
deriving DecidableEq

def addq (a b : Quad) : Quad := ⟨a.w0 ^^^ b.w0, a.w1 ^^^ b.w1, a.w2 ^^^ b.w2, a.w3 ^^^ b.w3⟩

def midStep (s k : Quad) : Quad :=
  ⟨SM0 (byte3 s.w0) ^^^ SM1 (byte2 s.w1) ^^^ SM2 (byte1 s.w2) ^^^ SM3 (byte0 s.w3) ^^^ k.w0,
   SM0 (byte3 s.w1) ^^^ SM1 (byte2 s.w2) ^^^ SM2 (byte1 s.w3) ^^^ SM3 (byte0 s.w0) ^^^ k.w1,
   SM0 (byte3 s.w2) ^^^ SM1 (byte2 s.w3) ^^^ SM2 (byte1 s.w0) ^^^ SM3 (byte0 s.w1) ^^^ k.w2,
   SM0 (byte3 s.w3) ^^^ SM1 (byte2 s.w0) ^^^ SM2 (byte1 s.w1) ^^^ SM3 (byte0 s.w2) ^^^ k.w3⟩

def finalStep (s k : Quad) : Quad :=
  ⟨pack (sbox (byte3 s.w0)) (sbox (byte2 s.w1)) (sbox (byte1 s.w2)) (sbox (byte0 s.w3)) ^^^ k.w0,
   pack (sbox (byte3 s.w1)) (sbox (byte2 s.w2)) (sbox (byte1 s.w3)) (sbox (byte0 s.w0)) ^^^ k.w1,
   pack (sbox (byte3 s.w2)) (sbox (byte2 s.w3)) (sbox (byte1 s.w0)) (sbox (byte0 s.w1)) ^^^ k.w2,
   pack (sbox (byte3 s.w3)) (sbox (byte2 s.w0)) (sbox (byte1 s.w1)) (sbox (byte0 s.w2)) ^^^ k.w3⟩

def invMidStep (s k : Quad) : Quad :=
  ⟨ISM0 (byte3 s.w0) ^^^ ISM1 (byte2 s.w1) ^^^ ISM2 (byte1 s.w2) ^^^ ISM3 (byte0 s.w3) ^^^ k.w0,
   ISM0 (byte3 s.w1) ^^^ ISM1 (byte2 s.w2) ^^^ ISM2 (byte1 s.w3) ^^^ ISM3 (byte0 s.w0) ^^^ k.w1,
   ISM0 (byte3 s.w2) ^^^ ISM1 (byte2 s.w3) ^^^ ISM2 (byte1 s.w0) ^^^ ISM3 (byte0 s.w1) ^^^ k.w2,
   ISM0 (byte3 s.w3) ^^^ ISM1 (byte2 s.w0) ^^^ ISM2 (byte1 s.w1) ^^^ ISM3 (byte0 s.w2) ^^^ k.w3⟩

def invFinalStep (s k : Quad) : Quad :=
  ⟨pack (invSbox (byte3 s.w0)) (invSbox (byte2 s.w1)) (invSbox (byte1 s.w2))
      (invSbox (byte0 s.w3)) ^^^ k.w0,
   pack (invSbox (byte3 s.w1)) (invSbox (byte2 s.w2)) (invSbox (byte1 s.w3))
      (invSbox (byte0 s.w0)) ^^^ k.w1,
   pack (invSbox (byte3 s.w2)) (invSbox (byte2 s.w3)) (invSbox (byte1 s.w0))
      (invSbox (byte0 s.w1)) ^^^ k.w2,
   pack (invSbox (byte3 s.w3)) (invSbox (byte2 s.w0)) (invSbox (byte1 s.w1))
      (invSbox (byte0 s.w2)) ^^^ k.w3⟩

def encRounds : List Quad → Quad → Quad
  | [], s => s
  | [k], s => finalStep s k
  | k :: k2 :: rest, s => encRounds (k2 :: rest) (midStep s k)

def encryptBlk (rks : List Quad) (s : Quad) : Quad :=
  match rks with
  | [] => s
  | k0 :: rest => encRounds rest (addq s k0)

def decRounds : List Quad → Quad → Quad
  | [], s => s
  | [k], s => invFinalStep s k
  | k :: k2 :: rest, s => decRounds (k2 :: rest) (invMidStep s k)

def swapq (s : Quad) : Quad := ⟨s.w0, s.w3, s.w2, s.w1⟩

def decryptBlk (irks : List Quad) (c : Quad) : Quad :=
  match irks with
  | [] => c
  | k0 :: rest => swapq (decRounds rest (addq (swapq c) k0))

def groupQuads : List Nat → List Quad
  | a :: b :: c :: d :: rest => ⟨a, b, c, d⟩ :: groupQuads rest
  | _ => []

/-! ## WordArray plumbing at the byte level

A crypto-js `WordArray` is modelled by its byte content.  `bytesToWords` packs
bytes big-endian four to a word, zero-filling a trailing partial word exactly
as `WordArray.create` does from a `Uint8Array`; `wordsToBytes` is the loop of
`Encrypt.wordArrayToArrayBuffer` (`(words[i >>> 2] >>> (24 - (i % 4) * 8)) &
0xff` for `i < sigBytes`).  `wordsToQuads n` reads `n` blocks of four words,
with absent words read as 0 — in JavaScript, words past the end of the array
are `undefined`, which the arithmetic used by the cipher coerces to 0. -/

def bytesToWords : List Nat → List Nat
  | a :: b :: c :: d :: rest => pack a b c d :: bytesToWords rest
  | [a, b, c] => [pack a b c 0]
  | [a, b] => [pack a b 0 0]
  | [a] => [pack a 0 0 0]
  | [] => []

def wordsToBytes (words : List Nat) (sigBytes : Nat) : List Nat :=
  (List.range sigBytes).map (fun i => (words.getD (i / 4) 0 >>> (24 - (i % 4) * 8)) &&& 0xff)

def wordsToQuads (nBlocks : Nat) (ws : List Nat) : List Quad :=
  (List.range nBlocks).map (fun i =>
    ⟨ws.getD (4 * i) 0, ws.getD (4 * i + 1) 0, ws.getD (4 * i + 2) 0, ws.getD (4 * i + 3) 0⟩)

def quadsToWords : List Quad → List Nat
  | [] => []
  | q :: r => q.w0 :: q.w1 :: q.w2 :: q.w3 :: quadsToWords r

/-! ## CBC chaining and PKCS#7 padding

`cbcEncrypt` xors each plaintext block with the previous ciphertext block (the
IV first) before the block transform; `cbcDecrypt` undoes this, remembering the
raw ciphertext block as the next chaining value.  `padBytes` is
`CryptoJS.pad.Pkcs7.pad`: append `16 - len % 16` copies of that count. -/

def cbcEncrypt (rks : List Quad) (prev : Quad) : List Quad → List Quad
  | [] => []
  | p :: rest =>
    let c := encryptBlk rks (addq p prev)
    c :: cbcEncrypt rks c rest

def cbcDecrypt (irks : List Quad) (prev : Quad) : List Quad → List Quad
  | [] => []
  | c :: rest => addq (decryptBlk irks c) prev :: cbcDecrypt irks c rest

def padBytes (bs : List Nat) : List Nat :=
  bs ++ List.replicate (16 - bs.length % 16) (16 - bs.length % 16)

/-! ## Key-material derivation and the cipher pipelines

Key strings are lists of Unicode scalar values (JavaScript `slice` on
character positions); `utf8Encode` is `TextEncoder`, restricted to the Basic
Multilingual Plane.  `deriveKeyBytes`/`deriveIvQuad` are the
`key.slice(16, 48)` / `key.slice(0, 16)` derivations of `encryptText` and
`decryptText`; the CBC code reads only the first four IV words and treats
missing ones as 0, hence the `getD _ 0` reads.

`aesValidKey` delimits the modelled key sizes: a positive multiple of 4 bytes,
at least 16.  In that range the crypto-js loops are exact integer computations
(note: 20, 28, ... byte keys are accepted and silently run a generalized
Rijndael schedule — crypto-js performs no key length validation).  Outside it,
crypto-js silently computes with JavaScript `undefined`/`NaN` coercions; the
model reports `unsupportedKeyMaterial` for such keys instead of modelling that.

`aesCbcDecrypt` reproduces `CryptoJS.pad.Pkcs7.unpad`, which performs no
validation whatsoever: it reads the final byte of the word holding byte
`sigBytes - 1` and subtracts it from the length.  If that underflows,
`wordArrayToArrayBuffer` throws a `RangeError` from `new ArrayBuffer` with a
negative length (`negativeLength` below).  The `jsFalsy` test models the
`if (!decrypted)` check of `decryptText`: an `ArrayBuffer` object is never
falsy in JavaScript, so the test is constantly false. -/

inductive CryptError
  | invalidCiphertext
  | checkKey
  | negativeLength
  | unsupportedKeyMaterial
deriving DecidableEq

instance : DecidableEq (Except CryptError (List Nat)) := fun x y =>
  match x, y with
  | .ok a, .ok b =>
    if h : a = b then .isTrue (by rw [h]) else .isFalse (by simp [h])
  | .error e, .error f =>
    if h : e = f then .isTrue (by rw [h]) else .isFalse (by simp [h])
  | .ok _, .error _ => .isFalse (by simp)
  | .error _, .ok _ => .isFalse (by simp)

def utf8EncodeChar (c : Nat) : List Nat :=
  if c < 0x80 then [c]
  else if c < 0x800 then [0xC0 ||| (c >>> 6), 0x80 ||| (c &&& 0x3F)]
  else [0xE0 ||| (c >>> 12), 0x80 ||| ((c >>> 6) &&& 0x3F), 0x80 ||| (c &&& 0x3F)]

def utf8Encode : List Nat → List Nat
  | [] => []
  | c :: rest => utf8EncodeChar c ++ utf8Encode rest

def aesValidKey (keyBytes : List Nat) : Bool :=
  keyBytes.length % 4 == 0 && 16 ≤ keyBytes.length

def deriveIvQuad (key : List Nat) : Quad :=
  let ivWords := bytesToWords (utf8Encode (key.take 16))
  ⟨ivWords.getD 0 0, ivWords.getD 1 0, ivWords.getD 2 0, ivWords.getD 3 0⟩

def deriveKeyBytes (key : List Nat) : List Nat := utf8Encode ((key.drop 16).take 32)

def jsFalsy (_ : List Nat) : Bool := false

def aesCbcEncrypt (plain : List Nat) (key : List Nat) : Except CryptError (List Nat) :=
  let keyBytes := deriveKeyBytes key
  if aesValidKey keyBytes then
    let keySize := keyBytes.length / 4
    let rks := groupQuads (keyExpansion (bytesToWords keyBytes) keySize)
    let padded := padBytes plain
    let blocks := wordsToQuads (padded.length / 16) (bytesToWords padded)
    let ctQuads := cbcEncrypt rks (deriveIvQuad key) blocks
    .ok (wordsToBytes (quadsToWords ctQuads) padded.length)
  else .error .unsupportedKeyMaterial

def aesCbcDecrypt (ct : List Nat) (key : List Nat) : Except CryptError (List Nat) :=
  let keyBytes := deriveKeyBytes key
  if aesValidKey keyBytes then
    let keySize := keyBytes.length / 4
    let ks := keyExpansion (bytesToWords keyBytes) keySize
    let irks := groupQuads (invKeyExpansion ks ((keySize + 6 + 1) * 4))
    let nBlocks := (ct.length + 15) / 16
    let blocks := wordsToQuads nBlocks (bytesToWords ct)
    let decWords := quadsToWords (cbcDecrypt irks (deriveIvQuad key) blocks)
    let nPad := if ct.length == 0 then 0 else (decWords.getD ((ct.length - 1) / 4) 0) &&& 0xff
    if nPad ≤ ct.length then
      let decrypted := wordsToBytes decWords (ct.length - nPad)
      if jsFalsy decrypted then .error .checkKey else .ok decrypted
    else .error .negativeLength
  else .error .unsupportedKeyMaterial

/-! ## The two format variants

`Encrypt.encryptText` / `Encrypt.decryptText` embed `src/encrypt.ts`: the
frame is `MAGIC_WORDS` (the bytes of the word `0x000273db`, `sigBytes = 4`)
followed by the ciphertext, and `decryptText` rejects buffers shorter than 4
bytes or whose first word differs from the marker before stripping 4 bytes and
running the cipher.  `Legacy.encryptText` embeds the marker-less
`src/unnamed/part_000` variant, identical except for the marker. -/

def MAGIC_WORD : Nat := 0x000273db

def MAGIC_WORDS : List Nat := [0x00, 0x02, 0x73, 0xdb]

namespace Encrypt

def encryptText (buffer : List Nat) (key : List Nat) : Except CryptError (List Nat) :=
  (aesCbcEncrypt buffer key).map (fun ct => MAGIC_WORDS ++ ct)

def decryptText (buffer : List Nat) (key : List Nat) : Except CryptError (List Nat) :=
  if buffer.length < 4 then .error .invalidCiphertext
  else if pack (buffer.getD 0 0) (buffer.getD 1 0) (buffer.getD 2 0) (buffer.getD 3 0)
      ≠ MAGIC_WORD then .error .invalidCiphertext
  else aesCbcDecrypt (buffer.drop 4) key

end Encrypt

namespace Legacy

def encryptText (buffer : List Nat) (key : List Nat) : Except CryptError (List Nat) :=
  aesCbcEncrypt buffer key

end Legacy

/-! Boundedness predicates used throughout the proofs. -/

@[reducible] def Bytes (l : List Nat) : Prop := ∀ b ∈ l, b < 256

@[reducible] def Ascii (l : List Nat) : Prop := ∀ c ∈ l, c < 128

def QB (q : Quad) : Prop := IsW32 q.w0 ∧ IsW32 q.w1 ∧ IsW32 q.w2 ∧ IsW32 q.w3

/-! ## Word-level algebraic forms of the table-based rounds

`mixW` / `invMixW` are MixColumns / InvMixColumns on one column word; the
`SUB_MIX` combination used by a main round equals `mixW` after `SBOX`
substitution (`smCombo`), its inverse analogue equals `invMixW` after
`INV_SBOX` substitution (`ismCombo`), and the inverse-key-schedule transform
equals `invMixW` (`ismSboxCombo`). -/

def mixW (w : Nat) : Nat :=
  pack (g2 (byte3 w) ^^^ g3 (byte2 w) ^^^ byte1 w ^^^ byte0 w)
    (byte3 w ^^^ g2 (byte2 w) ^^^ g3 (byte1 w) ^^^ byte0 w)
    (byte3 w ^^^ byte2 w ^^^ g2 (byte1 w) ^^^ g3 (byte0 w))
    (g3 (byte3 w) ^^^ byte2 w ^^^ byte1 w ^^^ g2 (byte0 w))

def invMixW (w : Nat) : Nat :=
  pack (g14 (byte3 w) ^^^ g11 (byte2 w) ^^^ g13 (byte1 w) ^^^ g9 (byte0 w))
    (g9 (byte3 w) ^^^ g14 (byte2 w) ^^^ g11 (byte1 w) ^^^ g13 (byte0 w))
    (g13 (byte3 w) ^^^ g9 (byte2 w) ^^^ g14 (byte1 w) ^^^ g11 (byte0 w))
    (g11 (byte3 w) ^^^ g13 (byte2 w) ^^^ g9 (byte1 w) ^^^ g14 (byte0 w))

theorem xor_pack4 {a1 b1 c1 d1 a2 b2 c2 d2 a3 b3 c3 d3 a4 b4 c4 d4 : Nat}
    (ha1 : a1 < 256) (hb1 : b1 < 256) (hc1 : c1 < 256) (hd1 : d1 < 256)
    (ha2 : a2 < 256) (hb2 : b2 < 256) (hc2 : c2 < 256) (hd2 : d2 < 256)
    (ha3 : a3 < 256) (hb3 : b3 < 256) (hc3 : c3 < 256) (hd3 : d3 < 256)
    (ha4 : a4 < 256) (hb4 : b4 < 256) (hc4 : c4 < 256) (hd4 : d4 < 256) :
    pack a1 b1 c1 d1 ^^^ pack a2 b2 c2 d2 ^^^ pack a3 b3 c3 d3 ^^^ pack a4 b4 c4 d4 =
      pack (a1 ^^^ a2 ^^^ a3 ^^^ a4) (b1 ^^^ b2 ^^^ b3 ^^^ b4)
        (c1 ^^^ c2 ^^^ c3 ^^^ c4) (d1 ^^^ d2 ^^^ d3 ^^^ d4) := by
  rw [xor_pack ha1 hb1 hc1 hd1 ha2 hb2 hc2 hd2,
    xor_pack (xor_byte_lt ha1 ha2) (xor_byte_lt hb1 hb2) (xor_byte_lt hc1 hc2)
      (xor_byte_lt hd1 hd2) ha3 hb3 hc3 hd3,
    xor_pack (xor_byte_lt (xor_byte_lt ha1 ha2) ha3) (xor_byte_lt (xor_byte_lt hb1 hb2) hb3)
      (xor_byte_lt (xor_byte_lt hc1 hc2) hc3) (xor_byte_lt (xor_byte_lt hd1 hd2) hd3)
      ha4 hb4 hc4 hd4]

theorem subWord_pack {a b c d : Nat} (ha : a < 256) (hb : b < 256) (hc : c < 256)
    (hd : d < 256) :
    subWord (pack a b c d) = pack (sbox a) (sbox b) (sbox c) (sbox d) := by
  unfold subWord
  rw [byte3_pack ha hb hc hd, byte2_pack ha hb hc hd, byte1_pack ha hb hc hd,
    byte0_pack ha hb hc hd]

theorem invSubWord_pack {a b c d : Nat} (ha : a < 256) (hb : b < 256) (hc : c < 256)
    (hd : d < 256) :
    invSubWord (pack a b c d) = pack (invSbox a) (invSbox b) (invSbox c) (invSbox d) := by
  unfold invSubWord
  rw [byte3_pack ha hb hc hd, byte2_pack ha hb hc hd, byte1_pack ha hb hc hd,
    byte0_pack ha hb hc hd]

theorem mixW_pack {a b c d : Nat} (ha : a < 256) (hb : b < 256) (hc : c < 256)
    (hd : d < 256) :
    mixW (pack a b c d) =
      pack (g2 a ^^^ g3 b ^^^ c ^^^ d) (a ^^^ g2 b ^^^ g3 c ^^^ d)
        (a ^^^ b ^^^ g2 c ^^^ g3 d) (g3 a ^^^ b ^^^ c ^^^ g2 d) := by
  unfold mixW
  rw [byte3_pack ha hb hc hd, byte2_pack ha hb hc hd, byte1_pack ha hb hc hd,
    byte0_pack ha hb hc hd]

theorem invMixW_pack {a b c d : Nat} (ha : a < 256) (hb : b < 256) (hc : c < 256)
    (hd : d < 256) :
    invMixW (pack a b c d) =
      pack (g14 a ^^^ g11 b ^^^ g13 c ^^^ g9 d) (g9 a ^^^ g14 b ^^^ g11 c ^^^ g13 d)
        (g13 a ^^^ g9 b ^^^ g14 c ^^^ g11 d) (g11 a ^^^ g13 b ^^^ g9 c ^^^ g14 d) := by
  unfold invMixW
  rw [byte3_pack ha hb hc hd, byte2_pack ha hb hc hd, byte1_pack ha hb hc hd,
    byte0_pack ha hb hc hd]

theorem smCombo {a b c d : Nat} (ha : a < 256) (hb : b < 256) (hc : c < 256)
    (hd : d < 256) :
    SM0 a ^^^ SM1 b ^^^ SM2 c ^^^ SM3 d = mixW (subWord (pack a b c d)) := by
  have hsa := sbox_lt a
  have hsb := sbox_lt b
  have hsc := sbox_lt c
  have hsd := sbox_lt d
  rw [sm0_spec ha, sm1_spec hb, sm2_spec hc, sm3_spec hd,
    xor_pack4 (g2_lt hsa) hsa hsa (g3_lt hsa)
      (g3_lt hsb) (g2_lt hsb) hsb hsb
      hsc (g3_lt hsc) (g2_lt hsc) hsc
      hsd hsd (g3_lt hsd) (g2_lt hsd),
    subWord_pack ha hb hc hd, mixW_pack hsa hsb hsc hsd]

theorem ismCombo {a b c d : Nat} (ha : a < 256) (hb : b < 256) (hc : c < 256)
    (hd : d < 256) :
    ISM0 a ^^^ ISM1 b ^^^ ISM2 c ^^^ ISM3 d = invMixW (invSubWord (pack a b c d)) := by
  have hsa := invSbox_lt a
  have hsb := invSbox_lt b
  have hsc := invSbox_lt c
  have hsd := invSbox_lt d
  rw [ism0_spec ha, ism1_spec hb, ism2_spec hc, ism3_spec hd,
    xor_pack4 (g14_lt hsa) (g9_lt hsa) (g13_lt hsa) (g11_lt hsa)
      (g11_lt hsb) (g14_lt hsb) (g9_lt hsb) (g13_lt hsb)
      (g13_lt hsc) (g11_lt hsc) (g14_lt hsc) (g9_lt hsc)
      (g9_lt hsd) (g13_lt hsd) (g11_lt hsd) (g14_lt hsd),
    invSubWord_pack ha hb hc hd, invMixW_pack hsa hsb hsc hsd]

theorem ismSboxCombo {t : Nat} (ht : IsW32 t) :
    ISM0 (sbox (byte3 t)) ^^^ ISM1 (sbox (byte2 t)) ^^^ ISM2 (sbox (byte1 t)) ^^^
      ISM3 (sbox (byte0 t)) = invMixW t := by
  have h3 := byte3_lt ht
  have h2 := byte2_lt t
  have h1 := byte1_lt t
  have h0 := byte0_lt t
  rw [ism0_sbox_spec h3, ism1_sbox_spec h2, ism2_sbox_spec h1, ism3_sbox_spec h0,
    xor_pack4 (g14_lt h3) (g9_lt h3) (g13_lt h3) (g11_lt h3)
      (g11_lt h2) (g14_lt h2) (g9_lt h2) (g13_lt h2)
      (g13_lt h1) (g11_lt h1) (g14_lt h1) (g9_lt h1)
      (g9_lt h0) (g13_lt h0) (g11_lt h0) (g14_lt h0)]
  unfold invMixW
  rfl

theorem subWord_w32 (w : Nat) : IsW32 (subWord w) :=
  pack_lt (sbox_lt _) (sbox_lt _) (sbox_lt _) (sbox_lt _)

theorem invSubWord_w32 (w : Nat) : IsW32 (invSubWord w) :=
  pack_lt (invSbox_lt _) (invSbox_lt _) (invSbox_lt _) (invSbox_lt _)

theorem invSubWord_subWord {w : Nat} (h : IsW32 w) : invSubWord (subWord w) = w := by
  have h3 := byte3_lt h
  have h2 := byte2_lt w
  have h1 := byte1_lt w
  have h0 := byte0_lt w
  unfold subWord
  rw [invSubWord_pack (sbox_lt _) (sbox_lt _) (sbox_lt _) (sbox_lt _),
    invSbox_sbox h3, invSbox_sbox h2, invSbox_sbox h1, invSbox_sbox h0, repack h]

/-! The row bounds of `mixW` / `invMixW`. -/

theorem mixRow_lt {a b c d : Nat} (ha : a < 256) (hb : b < 256) (hc : c < 256)
    (hd : d < 256) : g2 a ^^^ g3 b ^^^ c ^^^ d < 256 :=
  xor_byte_lt (xor_byte_lt (xor_byte_lt (g2_lt ha) (g3_lt hb)) hc) hd

theorem invMixRow_lt {a b c d : Nat} (ha : a < 256) (hb : b < 256) (hc : c < 256)
    (hd : d < 256) : g14 a ^^^ g11 b ^^^ g13 c ^^^ g9 d < 256 :=
  xor_byte_lt (xor_byte_lt (xor_byte_lt (g14_lt ha) (g11_lt hb)) (g13_lt hc)) (g9_lt hd)

theorem mixW_w32 {w : Nat} (h : IsW32 w) : IsW32 (mixW w) := by
  have h3 := byte3_lt h
  have h2 := byte2_lt w
  have h1 := byte1_lt w
  have h0 := byte0_lt w
  apply pack_lt
  · exact xor_byte_lt (xor_byte_lt (xor_byte_lt (g2_lt h3) (g3_lt h2)) h1) h0
  · exact xor_byte_lt (xor_byte_lt (xor_byte_lt h3 (g2_lt h2)) (g3_lt h1)) h0
  · exact xor_byte_lt (xor_byte_lt (xor_byte_lt h3 h2) (g2_lt h1)) (g3_lt h0)
  · exact xor_byte_lt (xor_byte_lt (xor_byte_lt (g3_lt h3) h2) h1) (g2_lt h0)

theorem invMixW_w32 {w : Nat} (h : IsW32 w) : IsW32 (invMixW w) := by
  have h3 := byte3_lt h
  have h2 := byte2_lt w
  have h1 := byte1_lt w
  have h0 := byte0_lt w
  apply pack_lt
  · exact invMixRow_lt h3 h2 h1 h0
  · exact xor_byte_lt (xor_byte_lt (xor_byte_lt (g9_lt h3) (g14_lt h2)) (g11_lt h1)) (g13_lt h0)
  · exact xor_byte_lt (xor_byte_lt (xor_byte_lt (g13_lt h3) (g9_lt h2)) (g14_lt h1)) (g11_lt h0)
  · exact xor_byte_lt (xor_byte_lt (xor_byte_lt (g11_lt h3) (g13_lt h2)) (g9_lt h1)) (g14_lt h0)

/-! ## Row bounds and 4-way linearity of the coefficient maps -/

theorem mr0_lt {a b c d : Nat} (ha : a < 256) (hb : b < 256) (hc : c < 256) (hd : d < 256) :
    g2 a ^^^ g3 b ^^^ c ^^^ d < 256 :=
  xor_byte_lt (xor_byte_lt (xor_byte_lt (g2_lt ha) (g3_lt hb)) hc) hd

theorem mr1_lt {a b c d : Nat} (ha : a < 256) (hb : b < 256) (hc : c < 256) (hd : d < 256) :
    a ^^^ g2 b ^^^ g3 c ^^^ d < 256 :=
  xor_byte_lt (xor_byte_lt (xor_byte_lt ha (g2_lt hb)) (g3_lt hc)) hd

theorem mr2_lt {a b c d : Nat} (ha : a < 256) (hb : b < 256) (hc : c < 256) (hd : d < 256) :
    a ^^^ b ^^^ g2 c ^^^ g3 d < 256 :=
  xor_byte_lt (xor_byte_lt (xor_byte_lt ha hb) (g2_lt hc)) (g3_lt hd)

theorem mr3_lt {a b c d : Nat} (ha : a < 256) (hb : b < 256) (hc : c < 256) (hd : d < 256) :
    g3 a ^^^ b ^^^ c ^^^ g2 d < 256 :=
  xor_byte_lt (xor_byte_lt (xor_byte_lt (g3_lt ha) hb) hc) (g2_lt hd)

theorem imr0_lt {a b c d : Nat} (ha : a < 256) (hb : b < 256) (hc : c < 256) (hd : d < 256) :
    g14 a ^^^ g11 b ^^^ g13 c ^^^ g9 d < 256 :=
  xor_byte_lt (xor_byte_lt (xor_byte_lt (g14_lt ha) (g11_lt hb)) (g13_lt hc)) (g9_lt hd)

theorem imr1_lt {a b c d : Nat} (ha : a < 256) (hb : b < 256) (hc : c < 256) (hd : d < 256) :
    g9 a ^^^ g14 b ^^^ g11 c ^^^ g13 d < 256 :=
  xor_byte_lt (xor_byte_lt (xor_byte_lt (g9_lt ha) (g14_lt hb)) (g11_lt hc)) (g13_lt hd)

theorem imr2_lt {a b c d : Nat} (ha : a < 256) (hb : b < 256) (hc : c < 256) (hd : d < 256) :
    g13 a ^^^ g9 b ^^^ g14 c ^^^ g11 d < 256 :=
  xor_byte_lt (xor_byte_lt (xor_byte_lt (g13_lt ha) (g9_lt hb)) (g14_lt hc)) (g11_lt hd)

theorem imr3_lt {a b c d : Nat} (ha : a < 256) (hb : b < 256) (hc : c < 256) (hd : d < 256) :
    g11 a ^^^ g13 b ^^^ g9 c ^^^ g14 d < 256 :=
  xor_byte_lt (xor_byte_lt (xor_byte_lt (g11_lt ha) (g13_lt hb)) (g9_lt hc)) (g14_lt hd)

theorem g9_xor4 {a b c d : Nat} (ha : a < 256) (hb : b < 256) (hc : c < 256) (hd : d < 256) :
    g9 (a ^^^ b ^^^ c ^^^ d) = g9 a ^^^ g9 b ^^^ g9 c ^^^ g9 d := by
  rw [g9_xor (xor_byte_lt (xor_byte_lt ha hb) hc) hd, g9_xor (xor_byte_lt ha hb) hc,
    g9_xor ha hb]

theorem g11_xor4 {a b c d : Nat} (ha : a < 256) (hb : b < 256) (hc : c < 256) (hd : d < 256) :
    g11 (a ^^^ b ^^^ c ^^^ d) = g11 a ^^^ g11 b ^^^ g11 c ^^^ g11 d := by
  rw [g11_xor (xor_byte_lt (xor_byte_lt ha hb) hc) hd, g11_xor (xor_byte_lt ha hb) hc,
    g11_xor ha hb]

theorem g13_xor4 {a b c d : Nat} (ha : a < 256) (hb : b < 256) (hc : c < 256) (hd : d < 256) :
    g13 (a ^^^ b ^^^ c ^^^ d) = g13 a ^^^ g13 b ^^^ g13 c ^^^ g13 d := by
  rw [g13_xor (xor_byte_lt (xor_byte_lt ha hb) hc) hd, g13_xor (xor_byte_lt ha hb) hc,
    g13_xor ha hb]

theorem g14_xor4 {a b c d : Nat} (ha : a < 256) (hb : b < 256) (hc : c < 256) (hd : d < 256) :
    g14 (a ^^^ b ^^^ c ^^^ d) = g14 a ^^^ g14 b ^^^ g14 c ^^^ g14 d := by
  rw [g14_xor (xor_byte_lt (xor_byte_lt ha hb) hc) hd, g14_xor (xor_byte_lt ha hb) hc,
    g14_xor ha hb]

/-! ## InvMixColumns inverts MixColumns, and is XOR-linear -/

theorem invMixW_mixW {w : Nat} (h : IsW32 w) : invMixW (mixW w) = w := by
  have h3 := byte3_lt h
  have h2 := byte2_lt w
  have h1 := byte1_lt w
  have h0 := byte0_lt w
  have hR0 : g14 (g2 (byte3 w) ^^^ g3 (byte2 w) ^^^ byte1 w ^^^ byte0 w) ^^^
      g11 (byte3 w ^^^ g2 (byte2 w) ^^^ g3 (byte1 w) ^^^ byte0 w) ^^^
      g13 (byte3 w ^^^ byte2 w ^^^ g2 (byte1 w) ^^^ g3 (byte0 w)) ^^^
      g9 (g3 (byte3 w) ^^^ byte2 w ^^^ byte1 w ^^^ g2 (byte0 w)) = byte3 w := by
    rw [g14_xor4 (g2_lt h3) (g3_lt h2) h1 h0, g11_xor4 h3 (g2_lt h2) (g3_lt h1) h0,
      g13_xor4 h3 h2 (g2_lt h1) (g3_lt h0), g9_xor4 (g3_lt h3) h2 h1 (g2_lt h0)]
    trans ((g14 (g2 (byte3 w)) ^^^ g11 (byte3 w) ^^^ g13 (byte3 w) ^^^ g9 (g3 (byte3 w))) ^^^
      ((g14 (g3 (byte2 w)) ^^^ g11 (g2 (byte2 w)) ^^^ g13 (byte2 w) ^^^ g9 (byte2 w)) ^^^
      ((g14 (byte1 w) ^^^ g11 (g3 (byte1 w)) ^^^ g13 (g2 (byte1 w)) ^^^ g9 (byte1 w)) ^^^
      (g14 (byte0 w) ^^^ g11 (byte0 w) ^^^ g13 (g3 (byte0 w)) ^^^ g9 (g2 (byte0 w))))))
    · ac_rfl
    · rw [coef_r0_a h3, coef_r0_b h2, coef_r0_c h1, coef_r0_d h0]
      simp
  have hR1 : g9 (g2 (byte3 w) ^^^ g3 (byte2 w) ^^^ byte1 w ^^^ byte0 w) ^^^
      g14 (byte3 w ^^^ g2 (byte2 w) ^^^ g3 (byte1 w) ^^^ byte0 w) ^^^
      g11 (byte3 w ^^^ byte2 w ^^^ g2 (byte1 w) ^^^ g3 (byte0 w)) ^^^
      g13 (g3 (byte3 w) ^^^ byte2 w ^^^ byte1 w ^^^ g2 (byte0 w)) = byte2 w := by
    rw [g9_xor4 (g2_lt h3) (g3_lt h2) h1 h0, g14_xor4 h3 (g2_lt h2) (g3_lt h1) h0,
      g11_xor4 h3 h2 (g2_lt h1) (g3_lt h0), g13_xor4 (g3_lt h3) h2 h1 (g2_lt h0)]
    trans ((g9 (g2 (byte3 w)) ^^^ g14 (byte3 w) ^^^ g11 (byte3 w) ^^^ g13 (g3 (byte3 w))) ^^^
      ((g9 (g3 (byte2 w)) ^^^ g14 (g2 (byte2 w)) ^^^ g11 (byte2 w) ^^^ g13 (byte2 w)) ^^^
      ((g9 (byte1 w) ^^^ g14 (g3 (byte1 w)) ^^^ g11 (g2 (byte1 w)) ^^^ g13 (byte1 w)) ^^^
      (g9 (byte0 w) ^^^ g14 (byte0 w) ^^^ g11 (g3 (byte0 w)) ^^^ g13 (g2 (byte0 w))))))
    · ac_rfl
    · rw [coef_r1_a h3, coef_r1_b h2, coef_r1_c h1, coef_r1_d h0]
      simp
  have hR2 : g13 (g2 (byte3 w) ^^^ g3 (byte2 w) ^^^ byte1 w ^^^ byte0 w) ^^^
      g9 (byte3 w ^^^ g2 (byte2 w) ^^^ g3 (byte1 w) ^^^ byte0 w) ^^^
      g14 (byte3 w ^^^ byte2 w ^^^ g2 (byte1 w) ^^^ g3 (byte0 w)) ^^^
      g11 (g3 (byte3 w) ^^^ byte2 w ^^^ byte1 w ^^^ g2 (byte0 w)) = byte1 w := by
    rw [g13_xor4 (g2_lt h3) (g3_lt h2) h1 h0, g9_xor4 h3 (g2_lt h2) (g3_lt h1) h0,
      g14_xor4 h3 h2 (g2_lt h1) (g3_lt h0), g11_xor4 (g3_lt h3) h2 h1 (g2_lt h0)]
    trans ((g13 (g2 (byte3 w)) ^^^ g9 (byte3 w) ^^^ g14 (byte3 w) ^^^ g11 (g3 (byte3 w))) ^^^
      ((g13 (g3 (byte2 w)) ^^^ g9 (g2 (byte2 w)) ^^^ g14 (byte2 w) ^^^ g11 (byte2 w)) ^^^
      ((g13 (byte1 w) ^^^ g9 (g3 (byte1 w)) ^^^ g14 (g2 (byte1 w)) ^^^ g11 (byte1 w)) ^^^
      (g13 (byte0 w) ^^^ g9 (byte0 w) ^^^ g14 (g3 (byte0 w)) ^^^ g11 (g2 (byte0 w))))))
    · ac_rfl
    · rw [coef_r2_a h3, coef_r2_b h2, coef_r2_c h1, coef_r2_d h0]
      simp
  have hR3 : g11 (g2 (byte3 w) ^^^ g3 (byte2 w) ^^^ byte1 w ^^^ byte0 w) ^^^
      g13 (byte3 w ^^^ g2 (byte2 w) ^^^ g3 (byte1 w) ^^^ byte0 w) ^^^
      g9 (byte3 w ^^^ byte2 w ^^^ g2 (byte1 w) ^^^ g3 (byte0 w)) ^^^
      g14 (g3 (byte3 w) ^^^ byte2 w ^^^ byte1 w ^^^ g2 (byte0 w)) = byte0 w := by
    rw [g11_xor4 (g2_lt h3) (g3_lt h2) h1 h0, g13_xor4 h3 (g2_lt h2) (g3_lt h1) h0,
      g9_xor4 h3 h2 (g2_lt h1) (g3_lt h0), g14_xor4 (g3_lt h3) h2 h1 (g2_lt h0)]
    trans ((g11 (g2 (byte3 w)) ^^^ g13 (byte3 w) ^^^ g9 (byte3 w) ^^^ g14 (g3 (byte3 w))) ^^^
      ((g11 (g3 (byte2 w)) ^^^ g13 (g2 (byte2 w)) ^^^ g9 (byte2 w) ^^^ g14 (byte2 w)) ^^^
      ((g11 (byte1 w) ^^^ g13 (g3 (byte1 w)) ^^^ g9 (g2 (byte1 w)) ^^^ g14 (byte1 w)) ^^^
      (g11 (byte0 w) ^^^ g13 (byte0 w) ^^^ g9 (g3 (byte0 w)) ^^^ g14 (g2 (byte0 w))))))
    · ac_rfl
    · rw [coef_r3_a h3, coef_r3_b h2, coef_r3_c h1, coef_r3_d h0]
      simp
  unfold mixW
  rw [invMixW_pack (mr0_lt h3 h2 h1 h0) (mr1_lt h3 h2 h1 h0) (mr2_lt h3 h2 h1 h0)
    (mr3_lt h3 h2 h1 h0), hR0, hR1, hR2, hR3]
  exact repack h

theorem invMixW_xor {x y : Nat} (hx : IsW32 x) (hy : IsW32 y) :
    invMixW (x ^^^ y) = invMixW x ^^^ invMixW y := by
  have h3x := byte3_lt hx
  have h2x := byte2_lt x
  have h1x := byte1_lt x
  have h0x := byte0_lt x
  have h3y := byte3_lt hy
  have h2y := byte2_lt y
  have h1y := byte1_lt y
  have h0y := byte0_lt y
  apply byteExt (invMixW_w32 (xor_w32 hx hy)) (xor_w32 (invMixW_w32 hx) (invMixW_w32 hy))
  · rw [byte3_xor]
    unfold invMixW
    rw [byte3_pack (imr0_lt (byte3_lt (xor_w32 hx hy)) (byte2_lt _) (byte1_lt _) (byte0_lt _))
        (imr1_lt (byte3_lt (xor_w32 hx hy)) (byte2_lt _) (byte1_lt _) (byte0_lt _))
        (imr2_lt (byte3_lt (xor_w32 hx hy)) (byte2_lt _) (byte1_lt _) (byte0_lt _))
        (imr3_lt (byte3_lt (xor_w32 hx hy)) (byte2_lt _) (byte1_lt _) (byte0_lt _)),
      byte3_pack (imr0_lt h3x h2x h1x h0x) (imr1_lt h3x h2x h1x h0x)
        (imr2_lt h3x h2x h1x h0x) (imr3_lt h3x h2x h1x h0x),
      byte3_pack (imr0_lt h3y h2y h1y h0y) (imr1_lt h3y h2y h1y h0y)
        (imr2_lt h3y h2y h1y h0y) (imr3_lt h3y h2y h1y h0y),
      byte3_xor, byte2_xor, byte1_xor, byte0_xor,
      g14_xor h3x h3y, g11_xor h2x h2y, g13_xor h1x h1y, g9_xor h0x h0y]
    ac_rfl
  · rw [byte2_xor]
    unfold invMixW
    rw [byte2_pack (imr0_lt (byte3_lt (xor_w32 hx hy)) (byte2_lt _) (byte1_lt _) (byte0_lt _))
        (imr1_lt (byte3_lt (xor_w32 hx hy)) (byte2_lt _) (byte1_lt _) (byte0_lt _))
        (imr2_lt (byte3_lt (xor_w32 hx hy)) (byte2_lt _) (byte1_lt _) (byte0_lt _))
        (imr3_lt (byte3_lt (xor_w32 hx hy)) (byte2_lt _) (byte1_lt _) (byte0_lt _)),
      byte2_pack (imr0_lt h3x h2x h1x h0x) (imr1_lt h3x h2x h1x h0x)
        (imr2_lt h3x h2x h1x h0x) (imr3_lt h3x h2x h1x h0x),
      byte2_pack (imr0_lt h3y h2y h1y h0y) (imr1_lt h3y h2y h1y h0y)
        (imr2_lt h3y h2y h1y h0y) (imr3_lt h3y h2y h1y h0y),
      byte3_xor, byte2_xor, byte1_xor, byte0_xor,
      g9_xor h3x h3y, g14_xor h2x h2y, g11_xor h1x h1y, g13_xor h0x h0y]
    ac_rfl
  · rw [byte1_xor]
    unfold invMixW
    rw [byte1_pack (imr0_lt (byte3_lt (xor_w32 hx hy)) (byte2_lt _) (byte1_lt _) (byte0_lt _))
        (imr1_lt (byte3_lt (xor_w32 hx hy)) (byte2_lt _) (byte1_lt _) (byte0_lt _))
        (imr2_lt (byte3_lt (xor_w32 hx hy)) (byte2_lt _) (byte1_lt _) (byte0_lt _))
        (imr3_lt (byte3_lt (xor_w32 hx hy)) (byte2_lt _) (byte1_lt _) (byte0_lt _)),
      byte1_pack (imr0_lt h3x h2x h1x h0x) (imr1_lt h3x h2x h1x h0x)
        (imr2_lt h3x h2x h1x h0x) (imr3_lt h3x h2x h1x h0x),
      byte1_pack (imr0_lt h3y h2y h1y h0y) (imr1_lt h3y h2y h1y h0y)
        (imr2_lt h3y h2y h1y h0y) (imr3_lt h3y h2y h1y h0y),
      byte3_xor, byte2_xor, byte1_xor, byte0_xor,
      g13_xor h3x h3y, g9_xor h2x h2y, g14_xor h1x h1y, g11_xor h0x h0y]
    ac_rfl
  · rw [byte0_xor]
    unfold invMixW
    rw [byte0_pack (imr0_lt (byte3_lt (xor_w32 hx hy)) (byte2_lt _) (byte1_lt _) (byte0_lt _))
        (imr1_lt (byte3_lt (xor_w32 hx hy)) (byte2_lt _) (byte1_lt _) (byte0_lt _))
        (imr2_lt (byte3_lt (xor_w32 hx hy)) (byte2_lt _) (byte1_lt _) (byte0_lt _))
        (imr3_lt (byte3_lt (xor_w32 hx hy)) (byte2_lt _) (byte1_lt _) (byte0_lt _)),
      byte0_pack (imr0_lt h3x h2x h1x h0x) (imr1_lt h3x h2x h1x h0x)
        (imr2_lt h3x h2x h1x h0x) (imr3_lt h3x h2x h1x h0x),
      byte0_pack (imr0_lt h3y h2y h1y h0y) (imr1_lt h3y h2y h1y h0y)
        (imr2_lt h3y h2y h1y h0y) (imr3_lt h3y h2y h1y h0y),
      byte3_xor, byte2_xor, byte1_xor, byte0_xor,
      g11_xor h3x h3y, g13_xor h2x h2y, g9_xor h1x h1y, g14_xor h0x h0y]
    ac_rfl

/-! ## Quad-level algebra: ShiftRows, SubBytes, MixColumns on blocks -/

def SRq (q : Quad) : Quad :=
  ⟨pack (byte3 q.w0) (byte2 q.w1) (byte1 q.w2) (byte0 q.w3),
   pack (byte3 q.w1) (byte2 q.w2) (byte1 q.w3) (byte0 q.w0),
   pack (byte3 q.w2) (byte2 q.w3) (byte1 q.w0) (byte0 q.w1),
   pack (byte3 q.w3) (byte2 q.w0) (byte1 q.w1) (byte0 q.w2)⟩

def ISRq (q : Quad) : Quad :=
  ⟨pack (byte3 q.w0) (byte2 q.w3) (byte1 q.w2) (byte0 q.w1),
   pack (byte3 q.w1) (byte2 q.w0) (byte1 q.w3) (byte0 q.w2),
   pack (byte3 q.w2) (byte2 q.w1) (byte1 q.w0) (byte0 q.w3),
   pack (byte3 q.w3) (byte2 q.w2) (byte1 q.w1) (byte0 q.w0)⟩

def SBq (q : Quad) : Quad := ⟨subWord q.w0, subWord q.w1, subWord q.w2, subWord q.w3⟩

def ISBq (q : Quad) : Quad :=
  ⟨invSubWord q.w0, invSubWord q.w1, invSubWord q.w2, invSubWord q.w3⟩

def MCq (q : Quad) : Quad := ⟨mixW q.w0, mixW q.w1, mixW q.w2, mixW q.w3⟩

def IMCq (q : Quad) : Quad := ⟨invMixW q.w0, invMixW q.w1, invMixW q.w2, invMixW q.w3⟩

def Phi (q : Quad) : Quad := swapq (SBq (SRq q))

theorem quad_ext {a b : Quad} (h0 : a.w0 = b.w0) (h1 : a.w1 = b.w1) (h2 : a.w2 = b.w2)
    (h3 : a.w3 = b.w3) : a = b := by
  cases a
  cases b
  dsimp at h0 h1 h2 h3
  rw [h0, h1, h2, h3]

/-! Boundedness transport. -/

theorem addq_qb {a b : Quad} (ha : QB a) (hb : QB b) : QB (addq a b) :=
  ⟨xor_w32 ha.1 hb.1, xor_w32 ha.2.1 hb.2.1, xor_w32 ha.2.2.1 hb.2.2.1,
    xor_w32 ha.2.2.2 hb.2.2.2⟩

theorem swapq_qb {a : Quad} (ha : QB a) : QB (swapq a) :=
  ⟨ha.1, ha.2.2.2, ha.2.2.1, ha.2.1⟩

theorem SRq_qb {q : Quad} (h : QB q) : QB (SRq q) :=
  ⟨pack_lt (byte3_lt h.1) (byte2_lt _) (byte1_lt _) (byte0_lt _),
   pack_lt (byte3_lt h.2.1) (byte2_lt _) (byte1_lt _) (byte0_lt _),
   pack_lt (byte3_lt h.2.2.1) (byte2_lt _) (byte1_lt _) (byte0_lt _),
   pack_lt (byte3_lt h.2.2.2) (byte2_lt _) (byte1_lt _) (byte0_lt _)⟩

theorem SBq_qb (q : Quad) : QB (SBq q) :=
  ⟨subWord_w32 _, subWord_w32 _, subWord_w32 _, subWord_w32 _⟩

theorem ISBq_qb (q : Quad) : QB (ISBq q) :=
  ⟨invSubWord_w32 _, invSubWord_w32 _, invSubWord_w32 _, invSubWord_w32 _⟩

theorem IMCq_qb {q : Quad} (h : QB q) : QB (IMCq q) :=
  ⟨invMixW_w32 h.1, invMixW_w32 h.2.1, invMixW_w32 h.2.2.1, invMixW_w32 h.2.2.2⟩

theorem phi_qb (q : Quad) : QB (Phi q) := swapq_qb (SBq_qb _)

theorem midStep_qb {s k : Quad} (hk : QB k) : QB (midStep s k) := by
  refine ⟨?_, ?_, ?_, ?_⟩ <;>
    exact xor_w32 (xor_w32 (xor_w32 (xor_w32 (SM0_w32 _) (SM1_w32 _)) (SM2_w32 _))
      (SM3_w32 _)) (by first
        | exact hk.1
        | exact hk.2.1
        | exact hk.2.2.1
        | exact hk.2.2.2)

theorem finalStep_qb {s k : Quad} (hk : QB k) : QB (finalStep s k) := by
  refine ⟨?_, ?_, ?_, ?_⟩ <;>
    exact xor_w32 (pack_lt (sbox_lt _) (sbox_lt _) (sbox_lt _) (sbox_lt _)) (by first
      | exact hk.1
      | exact hk.2.1
      | exact hk.2.2.1
      | exact hk.2.2.2)

theorem encryptBlk_qb {rks : List Quad} (hrks : ∀ q ∈ rks, QB q) {s : Quad} (hs : QB s) :
    QB (encryptBlk rks s) := by
  have haux : ∀ (l : List Quad), (∀ q ∈ l, QB q) → ∀ t : Quad, QB t → QB (encRounds l t) := by
    intro l
    induction l with
    | nil => intro _ t ht; exact ht
    | cons k rest ih =>
      intro hl t ht
      cases rest with
      | nil => exact finalStep_qb (hl k (by simp))
      | cons k2 rs =>
        exact ih (fun q hq => hl q (by simp [hq])) _ (midStep_qb (hl k (by simp)))
  cases rks with
  | nil => exact hs
  | cons k0 rest =>
    exact haux rest (fun q hq => hrks q (by simp [hq])) _ (addq_qb hs (hrks k0 (by simp)))

/-! Commutation and cancellation identities. -/

theorem swapq_swapq (q : Quad) : swapq (swapq q) = q := rfl

theorem swapq_addq (a b : Quad) : swapq (addq a b) = addq (swapq a) (swapq b) := rfl

theorem ISBq_swapq (q : Quad) : ISBq (swapq q) = swapq (ISBq q) := rfl

theorem IMCq_swapq (q : Quad) : IMCq (swapq q) = swapq (IMCq q) := rfl

theorem srq_swapq (q : Quad) : SRq (swapq q) = swapq (ISRq q) := rfl

theorem addq_cancel (a k : Quad) : addq (addq a k) k = a := by
  apply quad_ext <;> exact xor_cancel_right _ _

/-! Byte structure of substituted words. -/

theorem byte3_subWord {w : Nat} (h : IsW32 w) : byte3 (subWord w) = sbox (byte3 w) := by
  unfold subWord
  rw [byte3_pack (sbox_lt _) (sbox_lt _) (sbox_lt _) (sbox_lt _)]

theorem byte2_subWord {w : Nat} (h : IsW32 w) : byte2 (subWord w) = sbox (byte2 w) := by
  unfold subWord
  rw [byte2_pack (sbox_lt _) (sbox_lt _) (sbox_lt _) (sbox_lt _)]

theorem byte1_subWord {w : Nat} (h : IsW32 w) : byte1 (subWord w) = sbox (byte1 w) := by
  unfold subWord
  rw [byte1_pack (sbox_lt _) (sbox_lt _) (sbox_lt _) (sbox_lt _)]

theorem byte0_subWord {w : Nat} (h : IsW32 w) : byte0 (subWord w) = sbox (byte0 w) := by
  unfold subWord
  rw [byte0_pack (sbox_lt _) (sbox_lt _) (sbox_lt _) (sbox_lt _)]

theorem isrq_srq {q : Quad} (h : QB q) : ISRq (SRq q) = q := by
  apply quad_ext
  · show pack (byte3 (SRq q).w0) (byte2 (SRq q).w3) (byte1 (SRq q).w2) (byte0 (SRq q).w1) = _
    unfold SRq
    dsimp
    rw [byte3_pack (byte3_lt h.1) (byte2_lt _) (byte1_lt _) (byte0_lt _),
      byte2_pack (byte3_lt h.2.2.2) (byte2_lt _) (byte1_lt _) (byte0_lt _),
      byte1_pack (byte3_lt h.2.2.1) (byte2_lt _) (byte1_lt _) (byte0_lt _),
      byte0_pack (byte3_lt h.2.1) (byte2_lt _) (byte1_lt _) (byte0_lt _)]
    exact repack h.1
  · show pack (byte3 (SRq q).w1) (byte2 (SRq q).w0) (byte1 (SRq q).w3) (byte0 (SRq q).w2) = _
    unfold SRq
    dsimp
    rw [byte3_pack (byte3_lt h.2.1) (byte2_lt _) (byte1_lt _) (byte0_lt _),
      byte2_pack (byte3_lt h.1) (byte2_lt _) (byte1_lt _) (byte0_lt _),
      byte1_pack (byte3_lt h.2.2.2) (byte2_lt _) (byte1_lt _) (byte0_lt _),
      byte0_pack (byte3_lt h.2.2.1) (byte2_lt _) (byte1_lt _) (byte0_lt _)]
    exact repack h.2.1
  · show pack (byte3 (SRq q).w2) (byte2 (SRq q).w1) (byte1 (SRq q).w0) (byte0 (SRq q).w3) = _
    unfold SRq
    dsimp
    rw [byte3_pack (byte3_lt h.2.2.1) (byte2_lt _) (byte1_lt _) (byte0_lt _),
      byte2_pack (byte3_lt h.2.1) (byte2_lt _) (byte1_lt _) (byte0_lt _),
      byte1_pack (byte3_lt h.1) (byte2_lt _) (byte1_lt _) (byte0_lt _),
      byte0_pack (byte3_lt h.2.2.2) (byte2_lt _) (byte1_lt _) (byte0_lt _)]
    exact repack h.2.2.1
  · show pack (byte3 (SRq q).w3) (byte2 (SRq q).w2) (byte1 (SRq q).w1) (byte0 (SRq q).w0) = _
    unfold SRq
    dsimp
    rw [byte3_pack (byte3_lt h.2.2.2) (byte2_lt _) (byte1_lt _) (byte0_lt _),
      byte2_pack (byte3_lt h.2.2.1) (byte2_lt _) (byte1_lt _) (byte0_lt _),
      byte1_pack (byte3_lt h.2.1) (byte2_lt _) (byte1_lt _) (byte0_lt _),
      byte0_pack (byte3_lt h.1) (byte2_lt _) (byte1_lt _) (byte0_lt _)]
    exact repack h.2.2.2

theorem isrq_sbq {q : Quad} (h : QB q) : ISRq (SBq q) = SBq (ISRq q) := by
  apply quad_ext
  · show pack (byte3 (subWord q.w0)) (byte2 (subWord q.w3)) (byte1 (subWord q.w2))
      (byte0 (subWord q.w1)) = subWord (pack (byte3 q.w0) (byte2 q.w3) (byte1 q.w2)
      (byte0 q.w1))
    rw [byte3_subWord h.1, byte2_subWord h.2.2.2, byte1_subWord h.2.2.1,
      byte0_subWord h.2.1,
      subWord_pack (byte3_lt h.1) (byte2_lt _) (byte1_lt _) (byte0_lt _)]
  · show pack (byte3 (subWord q.w1)) (byte2 (subWord q.w0)) (byte1 (subWord q.w3))
      (byte0 (subWord q.w2)) = subWord (pack (byte3 q.w1) (byte2 q.w0) (byte1 q.w3)
      (byte0 q.w2))
    rw [byte3_subWord h.2.1, byte2_subWord h.1, byte1_subWord h.2.2.2,
      byte0_subWord h.2.2.1,
      subWord_pack (byte3_lt h.2.1) (byte2_lt _) (byte1_lt _) (byte0_lt _)]
  · show pack (byte3 (subWord q.w2)) (byte2 (subWord q.w1)) (byte1 (subWord q.w0))
      (byte0 (subWord q.w3)) = subWord (pack (byte3 q.w2) (byte2 q.w1) (byte1 q.w0)
      (byte0 q.w3))
    rw [byte3_subWord h.2.2.1, byte2_subWord h.2.1, byte1_subWord h.1,
      byte0_subWord h.2.2.2,
      subWord_pack (byte3_lt h.2.2.1) (byte2_lt _) (byte1_lt _) (byte0_lt _)]
  · show pack (byte3 (subWord q.w3)) (byte2 (subWord q.w2)) (byte1 (subWord q.w1))
      (byte0 (subWord q.w0)) = subWord (pack (byte3 q.w3) (byte2 q.w2) (byte1 q.w1)
      (byte0 q.w0))
    rw [byte3_subWord h.2.2.2, byte2_subWord h.2.2.1, byte1_subWord h.2.1,
      byte0_subWord h.1,
      subWord_pack (byte3_lt h.2.2.2) (byte2_lt _) (byte1_lt _) (byte0_lt _)]

theorem isbq_sbq {q : Quad} (h : QB q) : ISBq (SBq q) = q := by
  apply quad_ext
  · exact invSubWord_subWord h.1
  · exact invSubWord_subWord h.2.1
  · exact invSubWord_subWord h.2.2.1
  · exact invSubWord_subWord h.2.2.2

theorem imcq_mcq {q : Quad} (h : QB q) : IMCq (MCq q) = q := by
  apply quad_ext
  · exact invMixW_mixW h.1
  · exact invMixW_mixW h.2.1
  · exact invMixW_mixW h.2.2.1
  · exact invMixW_mixW h.2.2.2

theorem imcq_addq {a b : Quad} (ha : QB a) (hb : QB b) :
    IMCq (addq a b) = addq (IMCq a) (IMCq b) := by
  apply quad_ext
  · exact invMixW_xor ha.1 hb.1
  · exact invMixW_xor ha.2.1 hb.2.1
  · exact invMixW_xor ha.2.2.1 hb.2.2.1
  · exact invMixW_xor ha.2.2.2 hb.2.2.2

/-! ## Algebraic forms of the four round functions -/

theorem midStep_eq {s k : Quad} (hs : QB s) :
    midStep s k = addq (MCq (SBq (SRq s))) k := by
  apply quad_ext
  · show SM0 (byte3 s.w0) ^^^ SM1 (byte2 s.w1) ^^^ SM2 (byte1 s.w2) ^^^ SM3 (byte0 s.w3) ^^^
        k.w0 = mixW (subWord (pack (byte3 s.w0) (byte2 s.w1) (byte1 s.w2) (byte0 s.w3))) ^^^ k.w0
    rw [smCombo (byte3_lt hs.1) (byte2_lt _) (byte1_lt _) (byte0_lt _)]
  · show SM0 (byte3 s.w1) ^^^ SM1 (byte2 s.w2) ^^^ SM2 (byte1 s.w3) ^^^ SM3 (byte0 s.w0) ^^^
        k.w1 = mixW (subWord (pack (byte3 s.w1) (byte2 s.w2) (byte1 s.w3) (byte0 s.w0))) ^^^ k.w1
    rw [smCombo (byte3_lt hs.2.1) (byte2_lt _) (byte1_lt _) (byte0_lt _)]
  · show SM0 (byte3 s.w2) ^^^ SM1 (byte2 s.w3) ^^^ SM2 (byte1 s.w0) ^^^ SM3 (byte0 s.w1) ^^^
        k.w2 = mixW (subWord (pack (byte3 s.w2) (byte2 s.w3) (byte1 s.w0) (byte0 s.w1))) ^^^ k.w2
    rw [smCombo (byte3_lt hs.2.2.1) (byte2_lt _) (byte1_lt _) (byte0_lt _)]
  · show SM0 (byte3 s.w3) ^^^ SM1 (byte2 s.w0) ^^^ SM2 (byte1 s.w1) ^^^ SM3 (byte0 s.w2) ^^^
        k.w3 = mixW (subWord (pack (byte3 s.w3) (byte2 s.w0) (byte1 s.w1) (byte0 s.w2))) ^^^ k.w3
    rw [smCombo (byte3_lt hs.2.2.2) (byte2_lt _) (byte1_lt _) (byte0_lt _)]

theorem invMidStep_eq {s k : Quad} (hs : QB s) :
    invMidStep s k = addq (IMCq (ISBq (SRq s))) k := by
  apply quad_ext
  · show ISM0 (byte3 s.w0) ^^^ ISM1 (byte2 s.w1) ^^^ ISM2 (byte1 s.w2) ^^^ ISM3 (byte0 s.w3) ^^^
        k.w0 =
        invMixW (invSubWord (pack (byte3 s.w0) (byte2 s.w1) (byte1 s.w2) (byte0 s.w3))) ^^^ k.w0
    rw [ismCombo (byte3_lt hs.1) (byte2_lt _) (byte1_lt _) (byte0_lt _)]
  · show ISM0 (byte3 s.w1) ^^^ ISM1 (byte2 s.w2) ^^^ ISM2 (byte1 s.w3) ^^^ ISM3 (byte0 s.w0) ^^^
        k.w1 =
        invMixW (invSubWord (pack (byte3 s.w1) (byte2 s.w2) (byte1 s.w3) (byte0 s.w0))) ^^^ k.w1
    rw [ismCombo (byte3_lt hs.2.1) (byte2_lt _) (byte1_lt _) (byte0_lt _)]
  · show ISM0 (byte3 s.w2) ^^^ ISM1 (byte2 s.w3) ^^^ ISM2 (byte1 s.w0) ^^^ ISM3 (byte0 s.w1) ^^^
        k.w2 =
        invMixW (invSubWord (pack (byte3 s.w2) (byte2 s.w3) (byte1 s.w0) (byte0 s.w1))) ^^^ k.w2
    rw [ismCombo (byte3_lt hs.2.2.1) (byte2_lt _) (byte1_lt _) (byte0_lt _)]
  · show ISM0 (byte3 s.w3) ^^^ ISM1 (byte2 s.w0) ^^^ ISM2 (byte1 s.w1) ^^^ ISM3 (byte0 s.w2) ^^^
        k.w3 =
        invMixW (invSubWord (pack (byte3 s.w3) (byte2 s.w0) (byte1 s.w1) (byte0 s.w2))) ^^^ k.w3
    rw [ismCombo (byte3_lt hs.2.2.2) (byte2_lt _) (byte1_lt _) (byte0_lt _)]

theorem finalStep_eq {s k : Quad} (hs : QB s) :
    finalStep s k = addq (SBq (SRq s)) k := by
  apply quad_ext
  · show pack (sbox (byte3 s.w0)) (sbox (byte2 s.w1)) (sbox (byte1 s.w2))
        (sbox (byte0 s.w3)) ^^^ k.w0 =
        subWord (pack (byte3 s.w0) (byte2 s.w1) (byte1 s.w2) (byte0 s.w3)) ^^^ k.w0
    rw [subWord_pack (byte3_lt hs.1) (byte2_lt _) (byte1_lt _) (byte0_lt _)]
  · show pack (sbox (byte3 s.w1)) (sbox (byte2 s.w2)) (sbox (byte1 s.w3))
        (sbox (byte0 s.w0)) ^^^ k.w1 =
        subWord (pack (byte3 s.w1) (byte2 s.w2) (byte1 s.w3) (byte0 s.w0)) ^^^ k.w1
    rw [subWord_pack (byte3_lt hs.2.1) (byte2_lt _) (byte1_lt _) (byte0_lt _)]
  · show pack (sbox (byte3 s.w2)) (sbox (byte2 s.w3)) (sbox (byte1 s.w0))
        (sbox (byte0 s.w1)) ^^^ k.w2 =
        subWord (pack (byte3 s.w2) (byte2 s.w3) (byte1 s.w0) (byte0 s.w1)) ^^^ k.w2
    rw [subWord_pack (byte3_lt hs.2.2.1) (byte2_lt _) (byte1_lt _) (byte0_lt _)]
  · show pack (sbox (byte3 s.w3)) (sbox (byte2 s.w0)) (sbox (byte1 s.w1))
        (sbox (byte0 s.w2)) ^^^ k.w3 =
        subWord (pack (byte3 s.w3) (byte2 s.w0) (byte1 s.w1) (byte0 s.w2)) ^^^ k.w3
    rw [subWord_pack (byte3_lt hs.2.2.2) (byte2_lt _) (byte1_lt _) (byte0_lt _)]

theorem invFinalStep_eq {s k : Quad} (hs : QB s) :
    invFinalStep s k = addq (ISBq (SRq s)) k := by
  apply quad_ext
  · show pack (invSbox (byte3 s.w0)) (invSbox (byte2 s.w1)) (invSbox (byte1 s.w2))
        (invSbox (byte0 s.w3)) ^^^ k.w0 =
        invSubWord (pack (byte3 s.w0) (byte2 s.w1) (byte1 s.w2) (byte0 s.w3)) ^^^ k.w0
    rw [invSubWord_pack (byte3_lt hs.1) (byte2_lt _) (byte1_lt _) (byte0_lt _)]
  · show pack (invSbox (byte3 s.w1)) (invSbox (byte2 s.w2)) (invSbox (byte1 s.w3))
        (invSbox (byte0 s.w0)) ^^^ k.w1 =
        invSubWord (pack (byte3 s.w1) (byte2 s.w2) (byte1 s.w3) (byte0 s.w0)) ^^^ k.w1
    rw [invSubWord_pack (byte3_lt hs.2.1) (byte2_lt _) (byte1_lt _) (byte0_lt _)]
  · show pack (invSbox (byte3 s.w2)) (invSbox (byte2 s.w3)) (invSbox (byte1 s.w0))
        (invSbox (byte0 s.w1)) ^^^ k.w2 =
        invSubWord (pack (byte3 s.w2) (byte2 s.w3) (byte1 s.w0) (byte0 s.w1)) ^^^ k.w2
    rw [invSubWord_pack (byte3_lt hs.2.2.1) (byte2_lt _) (byte1_lt _) (byte0_lt _)]
  · show pack (invSbox (byte3 s.w3)) (invSbox (byte2 s.w0)) (invSbox (byte1 s.w1))
        (invSbox (byte0 s.w2)) ^^^ k.w3 =
        invSubWord (pack (byte3 s.w3) (byte2 s.w0) (byte1 s.w1) (byte0 s.w2)) ^^^ k.w3
    rw [invSubWord_pack (byte3_lt hs.2.2.2) (byte2_lt _) (byte1_lt _) (byte0_lt _)]

/-! ## Undoing the rounds one by one -/

theorem SR_phi {Y : Quad} (hY : QB Y) : SRq (Phi Y) = swapq (SBq Y) := by
  unfold Phi
  rw [srq_swapq, isrq_sbq (SRq_qb hY), isrq_srq hY]

theorem entry_eq {X kn : Quad} (hX : QB X) (hkn : QB kn) :
    addq (swapq (finalStep X kn)) (swapq kn) = Phi X := by
  rw [finalStep_eq hX, swapq_addq, addq_cancel]
  rfl

theorem round_undo {M k : Quad} (hM : QB M) (hk : QB k) :
    invMidStep (Phi (midStep M k)) (IMCq (swapq k)) = Phi M := by
  have hmid : QB (midStep M k) := midStep_qb hk
  rw [invMidStep_eq (phi_qb (midStep M k)), SR_phi hmid, ISBq_swapq, isbq_sbq hmid,
    IMCq_swapq, IMCq_swapq, ← swapq_addq, ← imcq_addq hmid hk, midStep_eq hM, addq_cancel,
    imcq_mcq (SBq_qb (SRq M))]
  rfl

theorem exit_eq {X0 k0 : Quad} (hX : QB X0) (hk0 : QB k0) :
    invFinalStep (Phi X0) (swapq k0) = swapq (addq X0 k0) := by
  rw [invFinalStep_eq (phi_qb X0), SR_phi hX, ISBq_swapq, isbq_sbq hX, ← swapq_addq]

/-! ## Folding the main rounds, and the block-level inversion -/

def encMids (ms : List Quad) (s : Quad) : Quad := ms.foldl midStep s

def decMids (ms : List Quad) (s : Quad) : Quad := ms.foldl invMidStep s

theorem encMids_cons (m : Quad) (ms : List Quad) (s : Quad) :
    encMids (m :: ms) s = encMids ms (midStep s m) := rfl

theorem decMids_cons (m : Quad) (ms : List Quad) (s : Quad) :
    decMids (m :: ms) s = decMids ms (invMidStep s m) := rfl

theorem encMids_append (l1 l2 : List Quad) (s : Quad) :
    encMids (l1 ++ l2) s = encMids l2 (encMids l1 s) := List.foldl_append _ _ _ _

theorem encMids_qb {ms : List Quad} (hms : ∀ q ∈ ms, QB q) {X : Quad} (hX : QB X) :
    QB (encMids ms X) := by
  induction ms generalizing X with
  | nil => exact hX
  | cons m rest ih =>
    rw [encMids_cons]
    exact ih (fun q hq => hms q (by simp [hq])) (midStep_qb (hms m (by simp)))

theorem encRounds_eq (ms : List Quad) (kn : Quad) :
    ∀ s, encRounds (ms ++ [kn]) s = finalStep (encMids ms s) kn := by
  induction ms with
  | nil => intro s; rfl
  | cons m rest ih =>
    intro s
    have hstep : encRounds ((m :: rest) ++ [kn]) s = encRounds (rest ++ [kn]) (midStep s m) := by
      cases rest with
      | nil => rfl
      | cons r rs => rfl
    rw [hstep, ih (midStep s m)]
    rfl

theorem decRounds_eq (ms : List Quad) (kn : Quad) :
    ∀ s, decRounds (ms ++ [kn]) s = invFinalStep (decMids ms s) kn := by
  induction ms with
  | nil => intro s; rfl
  | cons m rest ih =>
    intro s
    have hstep : decRounds ((m :: rest) ++ [kn]) s =
        decRounds (rest ++ [kn]) (invMidStep s m) := by
      cases rest with
      | nil => rfl
      | cons r rs => rfl
    rw [hstep, ih (invMidStep s m)]
    rfl

set_option maxHeartbeats 1000000 in
theorem decMids_undo (rk1 : Nat → Quad) (hb : ∀ i, QB (rk1 i)) :
    ∀ (m : Nat) (X : Quad), QB X →
      decMids ((List.range m).map (fun j => IMCq (swapq (rk1 (m - 1 - j)))))
        (Phi (encMids ((List.range m).map rk1) X)) = Phi X := by
  intro m
  induction m with
  | zero => intro X _; rfl
  | succ m ih =>
    intro X hX
    have he : (List.range (m + 1)).map rk1 = (List.range m).map rk1 ++ [rk1 m] := by
      rw [List.range_succ, List.map_append]
      rfl
    have hE : encMids ((List.range (m + 1)).map rk1) X
        = midStep (encMids ((List.range m).map rk1) X) (rk1 m) := by
      rw [he, encMids_append]
      rfl
    have htail : (List.range m).map
          ((fun j => IMCq (swapq (rk1 (m + 1 - 1 - j)))) ∘ Nat.succ)
        = (List.range m).map (fun j => IMCq (swapq (rk1 (m - 1 - j)))) := by
      apply List.map_congr_left
      intro j _
      show IMCq (swapq (rk1 (m + 1 - 1 - (j + 1)))) = IMCq (swapq (rk1 (m - 1 - j)))
      rw [show m + 1 - 1 - (j + 1) = m - 1 - j by omega]
    have hhead : IMCq (swapq (rk1 (m + 1 - 1 - 0))) = IMCq (swapq (rk1 m)) := by
      rw [show m + 1 - 1 - 0 = m by omega]
    have hd : (List.range (m + 1)).map (fun j => IMCq (swapq (rk1 (m + 1 - 1 - j))))
        = IMCq (swapq (rk1 m)) ::
          (List.range m).map (fun j => IMCq (swapq (rk1 (m - 1 - j)))) := by
      rw [List.range_succ_eq_map, List.map_cons, List.map_map, hhead, htail]
    rw [hE, hd, decMids_cons,
      round_undo (encMids_qb (fun q hq => by
        obtain ⟨i, _, rfl⟩ := List.mem_map.mp hq
        exact hb i) hX) (hb m)]
    exact ih X hX

def ikOf (rk : Nat → Quad) (n : Nat) (i : Nat) : Quad :=
  if i = 0 then swapq (rk n)
  else if i = n then swapq (rk 0)
  else IMCq (swapq (rk (n - i)))

theorem encryptBlk_cons (k0 : Quad) (rest : List Quad) (s : Quad) :
    encryptBlk (k0 :: rest) s = encRounds rest (addq s k0) := rfl

theorem decryptBlk_cons (k0 : Quad) (rest : List Quad) (c : Quad) :
    decryptBlk (k0 :: rest) c = swapq (decRounds rest (addq (swapq c) k0)) := rfl

theorem block_inv (rk : Nat → Quad) (n : Nat) (hn : 2 ≤ n) (hb : ∀ i, QB (rk i))
    (s : Quad) (hs : QB s) :
    decryptBlk ((List.range (n + 1)).map (ikOf rk n))
      (encryptBlk ((List.range (n + 1)).map rk) s) = s := by
  have hsplit : ∀ f : Nat → Quad, (List.range (n + 1)).map f
      = f 0 :: (((List.range (n - 1)).map (fun j => f (j + 1))) ++ [f n]) := by
    intro f
    have hcomp : (f ∘ Nat.succ) = fun j => f (j + 1) := rfl
    rw [List.range_succ_eq_map, List.map_cons, List.map_map, hcomp]
    congr 1
    conv_lhs => rw [show n = (n - 1) + 1 by omega, List.range_succ]
    rw [List.map_append]
    congr 1
    show [f (n - 1 + 1)] = [f n]
    rw [show n - 1 + 1 = n by omega]
  have hik0 : ikOf rk n 0 = swapq (rk n) := by
    unfold ikOf
    simp
  have hikn : ikOf rk n n = swapq (rk 0) := by
    unfold ikOf
    rw [if_neg (by omega), if_pos rfl]
  have hikmid : (List.range (n - 1)).map (fun j => ikOf rk n (j + 1))
      = (List.range (n - 1)).map (fun j => IMCq (swapq (rk (n - 1 - j)))) := by
    apply List.map_congr_left
    intro j hj
    have hj2 : j < n - 1 := List.mem_range.mp hj
    unfold ikOf
    rw [if_neg (by omega), if_neg (by omega), show n - (j + 1) = n - 1 - j by omega]
  rw [hsplit rk, hsplit (ikOf rk n), hik0, hikn, hikmid, encryptBlk_cons, decryptBlk_cons,
    encRounds_eq, decRounds_eq]
  have hX0 : QB (addq s (rk 0)) := addq_qb hs (hb 0)
  have hX : QB (encMids ((List.range (n - 1)).map (fun j => rk (j + 1))) (addq s (rk 0))) :=
    encMids_qb (fun q hq => by
      obtain ⟨i, _, rfl⟩ := List.mem_map.mp hq
      exact hb (i + 1)) hX0
  rw [entry_eq hX (hb n)]
  have hconv : (List.range (n - 1)).map (fun j => IMCq (swapq (rk (n - 1 - j))))
      = (List.range (n - 1)).map
          (fun j => IMCq (swapq ((fun i => rk (i + 1)) (n - 1 - 1 - j)))) := by
    apply List.map_congr_left
    intro j hj
    have hj2 : j < n - 1 := List.mem_range.mp hj
    have harith : n - 1 - 1 - j + 1 = n - 1 - j := by omega
    simp only
    rw [harith]
  rw [hconv, decMids_undo (fun i => rk (i + 1)) (fun i => hb (i + 1)) (n - 1)
    (addq s (rk 0)) hX0]
  rw [exit_eq hX0 (hb 0), swapq_swapq, addq_cancel]

/-! ## Lengths and 32-bit bounds of the schedules -/

theorem getD_w32 {l : List Nat} (h : ∀ w ∈ l, IsW32 w) (j : Nat) : IsW32 (l.getD j 0) := by
  by_cases hj : j < l.length
  · rw [List.getD_eq_getElem?_getD, List.getElem?_eq_getElem hj]
    exact h _ (List.getElem_mem hj)
  · rw [List.getD_eq_getElem?_getD, List.getElem?_eq_none (by omega), Option.getD_none]
    unfold IsW32
    positivity

theorem rcon_getD_lt (j : Nat) : RCON.getD j 0 < 256 := by
  by_cases hj : j < 11
  · exact of_decide_eq_true (all_range_spec
      (fun j => decide (RCON.getD j 0 < 256)) (by decide) hj)
  · have hlen : RCON.length = 11 := rfl
    rw [List.getD_eq_getElem?_getD, List.getElem?_eq_none (show RCON.length ≤ j by omega),
      Option.getD_none]
    omega

theorem rotl8_w32 {w : Nat} (h : IsW32 w) : IsW32 (rotl8 w) :=
  Nat.or_lt_two_pow (mask32_w32 _) (shiftRight_w32 h 24)

theorem rcon_shl_w32 (j : Nat) : IsW32 ((RCON.getD j 0) <<< 24) := by
  unfold IsW32
  have h := rcon_getD_lt j
  rw [Nat.shiftLeft_eq, show (2:Nat) ^ 24 = 16777216 by norm_num,
    show (2:Nat) ^ 32 = 4294967296 by norm_num]
  omega

theorem ksStep_length (kw : List Nat) (ksz : Nat) (ks : List Nat) :
    (ksStep kw ksz ks).length = ks.length + 1 := by
  simp only [ksStep]
  split <;> simp

theorem ksStep_w32 {kw : List Nat} (hkw : ∀ w ∈ kw, IsW32 w) (ksz : Nat) {ks : List Nat}
    (hks : ∀ w ∈ ks, IsW32 w) : ∀ w ∈ ksStep kw ksz ks, IsW32 w := by
  intro w hw
  simp only [ksStep] at hw
  split at hw
  · rcases List.mem_append.mp hw with h | h
    · exact hks _ h
    · rw [List.mem_singleton.mp h]
      exact getD_w32 hkw _
  · rcases List.mem_append.mp hw with h | h
    · exact hks _ h
    · rw [List.mem_singleton.mp h]
      apply xor_w32 (getD_w32 hks _)
      split
      · exact xor_w32 (subWord_w32 _) (rcon_shl_w32 _)
      · split
        · exact subWord_w32 _
        · exact getD_w32 hks _

theorem keyExpansionAux_length (kw : List Nat) (ksz : Nat) :
    ∀ (f : Nat) (ks : List Nat), (keyExpansionAux kw ksz f ks).length = ks.length + f := by
  intro f
  induction f with
  | zero => intro ks; rfl
  | succ f ih =>
    intro ks
    show (keyExpansionAux kw ksz f (ksStep kw ksz ks)).length = ks.length + (f + 1)
    rw [ih, ksStep_length]
    omega

theorem keyExpansion_length (kw : List Nat) (ksz : Nat) :
    (keyExpansion kw ksz).length = (ksz + 6 + 1) * 4 := by
  unfold keyExpansion
  rw [keyExpansionAux_length]
  simp

theorem keyExpansionAux_w32 {kw : List Nat} (hkw : ∀ w ∈ kw, IsW32 w) (ksz : Nat) :
    ∀ (f : Nat) (ks : List Nat), (∀ w ∈ ks, IsW32 w) →
      ∀ w ∈ keyExpansionAux kw ksz f ks, IsW32 w := by
  intro f
  induction f with
  | zero => intro ks hks; exact hks
  | succ f ih =>
    intro ks hks
    exact ih (ksStep kw ksz ks) (ksStep_w32 hkw ksz hks)

theorem keyExpansion_w32 {kw : List Nat} (hkw : ∀ w ∈ kw, IsW32 w) (ksz : Nat) :
    ∀ w ∈ keyExpansion kw ksz, IsW32 w :=
  keyExpansionAux_w32 hkw ksz _ [] (by simp)

theorem invKeyExpansion_getD {ks : List Nat} {R j : Nat} (hj : j < R) :
    (invKeyExpansion ks R).getD j 0 = invKsEntry ks R j := by
  unfold invKeyExpansion
  rw [List.getD_eq_getElem?_getD, List.getElem?_map, List.getElem?_range hj]
  rfl

/-! ## Grouping word lists into quads -/

def quadAt (l : List Nat) (i : Nat) : Quad :=
  ⟨l.getD (4 * i) 0, l.getD (4 * i + 1) 0, l.getD (4 * i + 2) 0, l.getD (4 * i + 3) 0⟩

theorem getD_cons4 (a b c d : Nat) (l : List Nat) (n : Nat) :
    (a :: b :: c :: d :: l).getD (n + 4) 0 = l.getD n 0 := by
  simp [List.getD_eq_getElem?_getD]

theorem quadAt_cons4 (a b c d : Nat) (l : List Nat) (j : Nat) :
    quadAt (a :: b :: c :: d :: l) (j + 1) = quadAt l j := by
  unfold quadAt
  rw [show 4 * (j + 1) + 3 = 4 * j + 3 + 4 by omega,
    show 4 * (j + 1) + 2 = 4 * j + 2 + 4 by omega,
    show 4 * (j + 1) + 1 = 4 * j + 1 + 4 by omega,
    show 4 * (j + 1) = 4 * j + 4 by omega,
    getD_cons4, getD_cons4, getD_cons4, getD_cons4]

theorem quadAt_qb {l : List Nat} (h : ∀ w ∈ l, IsW32 w) (i : Nat) : QB (quadAt l i) :=
  ⟨getD_w32 h _, getD_w32 h _, getD_w32 h _, getD_w32 h _⟩

theorem groupQuads_eq_map : ∀ (k : Nat) (l : List Nat), l.length = 4 * k →
    groupQuads l = (List.range k).map (quadAt l) := by
  intro k
  induction k with
  | zero =>
    intro l hl
    have : l = [] := List.eq_nil_of_length_eq_zero (by omega)
    rw [this]
    rfl
  | succ k ih =>
    intro l hl
    match l with
    | a :: b :: c :: d :: rest =>
      have hrest : rest.length = 4 * k := by
        simp at hl
        omega
      show Quad.mk a b c d :: groupQuads rest = _
      rw [ih rest hrest, List.range_succ_eq_map, List.map_cons, List.map_map]
      have hhead : quadAt (a :: b :: c :: d :: rest) 0 = Quad.mk a b c d := rfl
      have htail : (List.range k).map (quadAt (a :: b :: c :: d :: rest) ∘ Nat.succ)
          = (List.range k).map (quadAt rest) := by
        apply List.map_congr_left
        intro j _
        show quadAt (a :: b :: c :: d :: rest) (j + 1) = quadAt rest j
        exact quadAt_cons4 a b c d rest j
      rw [hhead, htail]
    | [] => simp at hl
    | [a] => simp at hl; omega
    | [a, b] => simp at hl; omega
    | [a, b, c] => simp at hl; omega

/-! ## The inverse key schedule groups into `ikOf` of the forward schedule

Entry `invKsRow = 4*i + r` of the crypto-js inverse schedule reads the forward
schedule at row `ksRows - invKsRow` (minus 4 when `invKsRow % 4 = 0`), which is
exactly the word `swapq (quadAt ks (n - i))` position `r`; the first and last
quads are copied, the middle ones get the equivalent-inverse-cipher
`INV_SUB_MIX ∘ SBOX` transform, i.e. `invMixW`. -/

theorem ik_quadAt {ks : List Nat} (hks : ∀ w ∈ ks, IsW32 w) (n i : Nat) (hi : i ≤ n) :
    quadAt (invKeyExpansion ks ((n + 1) * 4)) i = ikOf (quadAt ks) n i := by
  have hR0 : 4 * i < (n + 1) * 4 := by omega
  have hR1 : 4 * i + 1 < (n + 1) * 4 := by omega
  have hR2 : 4 * i + 2 < (n + 1) * 4 := by omega
  have hR3 : 4 * i + 3 < (n + 1) * 4 := by omega
  have hmod0 : (4 * i) % 4 = 0 := by omega
  have hmod1 : (4 * i + 1) % 4 = 1 := by omega
  have hmod2 : (4 * i + 2) % 4 = 2 := by omega
  have hmod3 : (4 * i + 3) % 4 = 3 := by omega
  by_cases hcopy : i = 0 ∨ i = n
  · have c0 : invKsEntry ks ((n + 1) * 4) (4 * i) = ks.getD (4 * (n - i)) 0 := by
      simp only [invKsEntry]
      rw [if_pos (by simp only [Bool.or_eq_true, decide_eq_true_eq]; omega),
        if_neg (by simp [hmod0]),
        show (n + 1) * 4 - 4 * i - 4 = 4 * (n - i) by omega]
    have c1 : invKsEntry ks ((n + 1) * 4) (4 * i + 1) = ks.getD (4 * (n - i) + 3) 0 := by
      simp only [invKsEntry]
      rw [if_pos (by simp only [Bool.or_eq_true, decide_eq_true_eq]; omega),
        if_pos (by simp [hmod1]),
        show (n + 1) * 4 - (4 * i + 1) = 4 * (n - i) + 3 by omega]
    have c2 : invKsEntry ks ((n + 1) * 4) (4 * i + 2) = ks.getD (4 * (n - i) + 2) 0 := by
      simp only [invKsEntry]
      rw [if_pos (by simp only [Bool.or_eq_true, decide_eq_true_eq]; omega),
        if_pos (by simp [hmod2]),
        show (n + 1) * 4 - (4 * i + 2) = 4 * (n - i) + 2 by omega]
    have c3 : invKsEntry ks ((n + 1) * 4) (4 * i + 3) = ks.getD (4 * (n - i) + 1) 0 := by
      simp only [invKsEntry]
      rw [if_pos (by simp only [Bool.or_eq_true, decide_eq_true_eq]; omega),
        if_pos (by simp [hmod3]),
        show (n + 1) * 4 - (4 * i + 3) = 4 * (n - i) + 1 by omega]
    unfold quadAt
    rw [invKeyExpansion_getD hR0, invKeyExpansion_getD hR1, invKeyExpansion_getD hR2,
      invKeyExpansion_getD hR3, c0, c1, c2, c3]
    rcases hcopy with h0 | hn2
    · subst h0
      unfold ikOf
      rw [if_pos rfl, Nat.sub_zero]
      rfl
    · by_cases h0 : i = 0
      · subst h0
        unfold ikOf
        rw [if_pos rfl, Nat.sub_zero]
        rfl
      · unfold ikOf
        rw [if_neg h0, if_pos hn2, show n - i = 0 by omega]
        rfl
  · push_neg at hcopy
    obtain ⟨h0, hn2⟩ := hcopy
    have c0 : invKsEntry ks ((n + 1) * 4) (4 * i) = invMixW (ks.getD (4 * (n - i)) 0) := by
      simp only [invKsEntry]
      rw [if_neg (show ¬(decide (4 * i < 4) || decide ((n + 1) * 4 - 4 * i ≤ 4)) = true by
          simp only [Bool.or_eq_true, decide_eq_true_eq]; omega),
        if_neg (by simp [hmod0]),
        show (n + 1) * 4 - 4 * i - 4 = 4 * (n - i) by omega]
      exact ismSboxCombo (getD_w32 hks _)
    have c1 : invKsEntry ks ((n + 1) * 4) (4 * i + 1) =
        invMixW (ks.getD (4 * (n - i) + 3) 0) := by
      simp only [invKsEntry]
      rw [if_neg (show ¬(decide (4 * i + 1 < 4) ||
            decide ((n + 1) * 4 - (4 * i + 1) ≤ 4)) = true by
          simp only [Bool.or_eq_true, decide_eq_true_eq]; omega),
        if_pos (by simp [hmod1]),
        show (n + 1) * 4 - (4 * i + 1) = 4 * (n - i) + 3 by omega]
      exact ismSboxCombo (getD_w32 hks _)
    have c2 : invKsEntry ks ((n + 1) * 4) (4 * i + 2) =
        invMixW (ks.getD (4 * (n - i) + 2) 0) := by
      simp only [invKsEntry]
      rw [if_neg (show ¬(decide (4 * i + 2 < 4) ||
            decide ((n + 1) * 4 - (4 * i + 2) ≤ 4)) = true by
          simp only [Bool.or_eq_true, decide_eq_true_eq]; omega),
        if_pos (by simp [hmod2]),
        show (n + 1) * 4 - (4 * i + 2) = 4 * (n - i) + 2 by omega]
      exact ismSboxCombo (getD_w32 hks _)
    have c3 : invKsEntry ks ((n + 1) * 4) (4 * i + 3) =
        invMixW (ks.getD (4 * (n - i) + 1) 0) := by
      simp only [invKsEntry]
      rw [if_neg (show ¬(decide (4 * i + 3 < 4) ||
            decide ((n + 1) * 4 - (4 * i + 3) ≤ 4)) = true by
          simp only [Bool.or_eq_true, decide_eq_true_eq]; omega),
        if_pos (by simp [hmod3]),
        show (n + 1) * 4 - (4 * i + 3) = 4 * (n - i) + 1 by omega]
      exact ismSboxCombo (getD_w32 hks _)
    unfold quadAt
    rw [invKeyExpansion_getD hR0, invKeyExpansion_getD hR1, invKeyExpansion_getD hR2,
      invKeyExpansion_getD hR3, c0, c1, c2, c3]
    unfold ikOf
    rw [if_neg h0, if_neg hn2]
    rfl

/-- One block encrypted with the grouped forward schedule is undone by
`decryptBlk` with the grouped inverse schedule, for any key size. -/
theorem blockRoundTrip {kw : List Nat} (hkw : ∀ w ∈ kw, IsW32 w) (ksz : Nat)
    (s : Quad) (hs : QB s) :
    decryptBlk (groupQuads (invKeyExpansion (keyExpansion kw ksz) ((ksz + 6 + 1) * 4)))
      (encryptBlk (groupQuads (keyExpansion kw ksz)) s) = s := by
  have hks : ∀ w ∈ keyExpansion kw ksz, IsW32 w := keyExpansion_w32 hkw ksz
  have hlen : (keyExpansion kw ksz).length = 4 * (ksz + 6 + 1) := by
    rw [keyExpansion_length]
    ring
  have hilen : (invKeyExpansion (keyExpansion kw ksz) ((ksz + 6 + 1) * 4)).length
      = 4 * (ksz + 6 + 1) := by
    unfold invKeyExpansion
    rw [List.length_map, List.length_range]
    ring
  rw [groupQuads_eq_map (ksz + 6 + 1) _ hlen, groupQuads_eq_map (ksz + 6 + 1) _ hilen]
  have hconv : (List.range (ksz + 6 + 1)).map
        (quadAt (invKeyExpansion (keyExpansion kw ksz) ((ksz + 6 + 1) * 4)))
      = (List.range (ksz + 6 + 1)).map (ikOf (quadAt (keyExpansion kw ksz)) (ksz + 6)) := by
    apply List.map_congr_left
    intro i hi
    exact ik_quadAt hks (ksz + 6) i (by have := List.mem_range.mp hi; omega)
  rw [hconv]
  exact block_inv (quadAt (keyExpansion kw ksz)) (ksz + 6) (by omega) (quadAt_qb hks) s hs

/-! ## Byte/word/quad conversions: bounds, lengths and round trips -/

theorem getElem_eq_getD {α : Type} (d : α) {l : List α} {j : Nat} (h : j < l.length) :
    l[j] = l.getD j d := by
  rw [List.getD_eq_getElem?_getD, List.getElem?_eq_getElem h]
  rfl

theorem getD_lt256 {l : List Nat} (hb : Bytes l) (j : Nat) : l.getD j 0 < 256 := by
  by_cases hj : j < l.length
  · rw [List.getD_eq_getElem?_getD, List.getElem?_eq_getElem hj]
    exact hb _ (List.getElem_mem hj)
  · rw [List.getD_eq_getElem?_getD, List.getElem?_eq_none (by omega), Option.getD_none]
    omega

theorem and255_eq {a : Nat} (h : a < 256) : a &&& 255 = a := by
  apply Nat.eq_of_testBit_eq
  intro i
  rw [Nat.testBit_land, show (255 : Nat) = 2 ^ 8 - 1 from rfl, Nat.testBit_two_pow_sub_one]
  by_cases hi : i < 8
  · simp [hi]
  · have hz : a.testBit i = false := testBit_ge_false (show a < 2 ^ 8 by omega) (by omega)
    simp [hi, hz]

theorem getD_zero_of_le {l : List Nat} {j : Nat} (h : l.length ≤ j) : l.getD j 0 = 0 := by
  rw [List.getD_eq_getElem?_getD, List.getElem?_eq_none h, Option.getD_none]

theorem bytesToWords_getD : ∀ (l : List Nat) (j : Nat),
    (bytesToWords l).getD j 0 =
      pack (l.getD (4 * j) 0) (l.getD (4 * j + 1) 0) (l.getD (4 * j + 2) 0)
        (l.getD (4 * j + 3) 0)
  | a :: b :: c :: d :: rest, 0 => rfl
  | a :: b :: c :: d :: rest, j + 1 => by
    show (bytesToWords rest).getD j 0 = _
    rw [bytesToWords_getD rest j, show 4 * (j + 1) + 3 = 4 * j + 3 + 4 by omega,
      show 4 * (j + 1) + 2 = 4 * j + 2 + 4 by omega,
      show 4 * (j + 1) + 1 = 4 * j + 1 + 4 by omega,
      show 4 * (j + 1) = 4 * j + 4 by omega,
      getD_cons4, getD_cons4, getD_cons4, getD_cons4]
  | [], j => by
    have h0 : (bytesToWords []).getD j 0 = 0 := getD_zero_of_le (by simp [bytesToWords])
    have h1 : List.getD [] (4 * j) (0 : Nat) = 0 := getD_zero_of_le (by simp)
    have h2 : List.getD [] (4 * j + 1) (0 : Nat) = 0 := getD_zero_of_le (by simp)
    have h3 : List.getD [] (4 * j + 2) (0 : Nat) = 0 := getD_zero_of_le (by simp)
    have h4 : List.getD [] (4 * j + 3) (0 : Nat) = 0 := getD_zero_of_le (by simp)
    rw [h0, h1, h2, h3, h4]
    rfl
  | [a], 0 => rfl
  | [a], j + 1 => by
    have h0 : (bytesToWords [a]).getD (j + 1) 0 = 0 :=
      getD_zero_of_le (by simp [bytesToWords] <;> omega)
    have h1 : List.getD [a] (4 * (j + 1)) (0 : Nat) = 0 := getD_zero_of_le (by simp <;> omega)
    have h2 : List.getD [a] (4 * (j + 1) + 1) (0 : Nat) = 0 := getD_zero_of_le (by simp <;> omega)
    have h3 : List.getD [a] (4 * (j + 1) + 2) (0 : Nat) = 0 := getD_zero_of_le (by simp <;> omega)
    have h4 : List.getD [a] (4 * (j + 1) + 3) (0 : Nat) = 0 := getD_zero_of_le (by simp <;> omega)
    rw [h0, h1, h2, h3, h4]
    rfl
  | [a, b], 0 => rfl
  | [a, b], j + 1 => by
    have h0 : (bytesToWords [a, b]).getD (j + 1) 0 = 0 :=
      getD_zero_of_le (by simp [bytesToWords] <;> omega)
    have h1 : List.getD [a, b] (4 * (j + 1)) (0 : Nat) = 0 := getD_zero_of_le (by simp <;> omega)
    have h2 : List.getD [a, b] (4 * (j + 1) + 1) (0 : Nat) = 0 :=
      getD_zero_of_le (by simp <;> omega)
    have h3 : List.getD [a, b] (4 * (j + 1) + 2) (0 : Nat) = 0 :=
      getD_zero_of_le (by simp <;> omega)
    have h4 : List.getD [a, b] (4 * (j + 1) + 3) (0 : Nat) = 0 :=
      getD_zero_of_le (by simp <;> omega)
    rw [h0, h1, h2, h3, h4]
    rfl
  | [a, b, c], 0 => rfl
  | [a, b, c], j + 1 => by
    have h0 : (bytesToWords [a, b, c]).getD (j + 1) 0 = 0 :=
      getD_zero_of_le (by simp [bytesToWords] <;> omega)
    have h1 : List.getD [a, b, c] (4 * (j + 1)) (0 : Nat) = 0 :=
      getD_zero_of_le (by simp <;> omega)
    have h2 : List.getD [a, b, c] (4 * (j + 1) + 1) (0 : Nat) = 0 :=
      getD_zero_of_le (by simp <;> omega)
    have h3 : List.getD [a, b, c] (4 * (j + 1) + 2) (0 : Nat) = 0 :=
      getD_zero_of_le (by simp <;> omega)
    have h4 : List.getD [a, b, c] (4 * (j + 1) + 3) (0 : Nat) = 0 :=
      getD_zero_of_le (by simp <;> omega)
    rw [h0, h1, h2, h3, h4]
    rfl

theorem bytesToWords_length : ∀ l : List Nat, (bytesToWords l).length = (l.length + 3) / 4
  | [] => rfl
  | [a] => by norm_num [bytesToWords]
  | [a, b] => by norm_num [bytesToWords]
  | [a, b, c] => by norm_num [bytesToWords]
  | a :: b :: c :: d :: rest => by
    show (bytesToWords rest).length + 1 = _
    rw [bytesToWords_length rest]
    simp only [List.length_cons]
    omega

theorem bytesToWords_w32 {l : List Nat} (hb : Bytes l) : ∀ w ∈ bytesToWords l, IsW32 w := by
  intro w hw
  obtain ⟨j, hj, hwj⟩ := List.mem_iff_getElem.mp hw
  rw [← hwj, getElem_eq_getD 0 hj, bytesToWords_getD]
  exact pack_lt (getD_lt256 hb _) (getD_lt256 hb _) (getD_lt256 hb _) (getD_lt256 hb _)

theorem wordsToBytes_length (ws : List Nat) (k : Nat) : (wordsToBytes ws k).length = k := by
  unfold wordsToBytes
  simp

theorem wordsToBytes_getD {ws : List Nat} {k i : Nat} (hi : i < k) :
    (wordsToBytes ws k).getD i 0 = (ws.getD (i / 4) 0 >>> (24 - i % 4 * 8)) &&& 0xff := by
  unfold wordsToBytes
  rw [List.getD_eq_getElem?_getD, List.getElem?_map, List.getElem?_range hi]
  rfl

theorem wordsToBytes_sel {ws l : List Nat} (hb : Bytes l)
    (hw : ∀ j, ws.getD j 0 = pack (l.getD (4 * j) 0) (l.getD (4 * j + 1) 0)
      (l.getD (4 * j + 2) 0) (l.getD (4 * j + 3) 0)) (i : Nat) :
    (ws.getD (i / 4) 0 >>> (24 - i % 4 * 8)) &&& 0xff = l.getD i 0 := by
  have ha := getD_lt256 hb (4 * (i / 4))
  have hb1 := getD_lt256 hb (4 * (i / 4) + 1)
  have hc := getD_lt256 hb (4 * (i / 4) + 2)
  have hd := getD_lt256 hb (4 * (i / 4) + 3)
  rw [hw (i / 4)]
  have h4 : i % 4 = 0 ∨ i % 4 = 1 ∨ i % 4 = 2 ∨ i % 4 = 3 := by omega
  rcases h4 with h | h | h | h
  · rw [h, show (24 - 0 * 8 : Nat) = 24 by norm_num]
    calc (pack (l.getD (4 * (i / 4)) 0) (l.getD (4 * (i / 4) + 1) 0) (l.getD (4 * (i / 4) + 2) 0)
            (l.getD (4 * (i / 4) + 3) 0) >>> 24) &&& 255
        = byte3 (pack (l.getD (4 * (i / 4)) 0) (l.getD (4 * (i / 4) + 1) 0)
            (l.getD (4 * (i / 4) + 2) 0) (l.getD (4 * (i / 4) + 3) 0)) &&& 255 := rfl
      _ = l.getD (4 * (i / 4)) 0 &&& 255 := by rw [byte3_pack ha hb1 hc hd]
      _ = l.getD (4 * (i / 4)) 0 := and255_eq ha
      _ = l.getD i 0 := by rw [show 4 * (i / 4) = i by omega]
  · rw [h, show (24 - 1 * 8 : Nat) = 16 by norm_num]
    calc (pack (l.getD (4 * (i / 4)) 0) (l.getD (4 * (i / 4) + 1) 0) (l.getD (4 * (i / 4) + 2) 0)
            (l.getD (4 * (i / 4) + 3) 0) >>> 16) &&& 255
        = byte2 (pack (l.getD (4 * (i / 4)) 0) (l.getD (4 * (i / 4) + 1) 0)
            (l.getD (4 * (i / 4) + 2) 0) (l.getD (4 * (i / 4) + 3) 0)) := rfl
      _ = l.getD (4 * (i / 4) + 1) 0 := byte2_pack ha hb1 hc hd
      _ = l.getD i 0 := by rw [show 4 * (i / 4) + 1 = i by omega]
  · rw [h, show (24 - 2 * 8 : Nat) = 8 by norm_num]
    calc (pack (l.getD (4 * (i / 4)) 0) (l.getD (4 * (i / 4) + 1) 0) (l.getD (4 * (i / 4) + 2) 0)
            (l.getD (4 * (i / 4) + 3) 0) >>> 8) &&& 255
        = byte1 (pack (l.getD (4 * (i / 4)) 0) (l.getD (4 * (i / 4) + 1) 0)
            (l.getD (4 * (i / 4) + 2) 0) (l.getD (4 * (i / 4) + 3) 0)) := rfl
      _ = l.getD (4 * (i / 4) + 2) 0 := byte1_pack ha hb1 hc hd
      _ = l.getD i 0 := by rw [show 4 * (i / 4) + 2 = i by omega]
  · rw [h, show (24 - 3 * 8 : Nat) = 0 by norm_num]
    calc (pack (l.getD (4 * (i / 4)) 0) (l.getD (4 * (i / 4) + 1) 0) (l.getD (4 * (i / 4) + 2) 0)
            (l.getD (4 * (i / 4) + 3) 0) >>> 0) &&& 255
        = byte0 (pack (l.getD (4 * (i / 4)) 0) (l.getD (4 * (i / 4) + 1) 0)
            (l.getD (4 * (i / 4) + 2) 0) (l.getD (4 * (i / 4) + 3) 0)) := rfl
      _ = l.getD (4 * (i / 4) + 3) 0 := byte0_pack ha hb1 hc hd
      _ = l.getD i 0 := by rw [show 4 * (i / 4) + 3 = i by omega]

theorem wordsToBytes_bytesToWords {l : List Nat} (hb : Bytes l) (k : Nat) (hk : k ≤ l.length) :
    wordsToBytes (bytesToWords l) k = l.take k := by
  apply List.ext_getElem
  · rw [wordsToBytes_length, List.length_take]
    omega
  · intro j h1 h2
    have hjk : j < k := by rw [wordsToBytes_length] at h1; exact h1
    have htake : (l.take k).getD j 0 = l.getD j 0 := by
      rw [List.getD_eq_getElem?_getD, List.getD_eq_getElem?_getD,
        List.getElem?_take_of_lt hjk]
    rw [getElem_eq_getD 0 h1, getElem_eq_getD 0 h2, htake, wordsToBytes_getD hjk]
    exact wordsToBytes_sel hb (bytesToWords_getD l) j

theorem bytesToWords_wordsToBytes {ws : List Nat} (hw : ∀ w ∈ ws, IsW32 w) :
    bytesToWords (wordsToBytes ws (4 * ws.length)) = ws := by
  have hlen : (wordsToBytes ws (4 * ws.length)).length = 4 * ws.length :=
    wordsToBytes_length _ _
  apply List.ext_getElem
  · rw [bytesToWords_length, hlen]
    omega
  · intro j h1 h2
    rw [getElem_eq_getD 0 h1, getElem_eq_getD 0 h2, bytesToWords_getD,
      wordsToBytes_getD (show 4 * j < 4 * ws.length by omega),
      wordsToBytes_getD (show 4 * j + 1 < 4 * ws.length by omega),
      wordsToBytes_getD (show 4 * j + 2 < 4 * ws.length by omega),
      wordsToBytes_getD (show 4 * j + 3 < 4 * ws.length by omega),
      show (4 * j) / 4 = j by omega, show (4 * j) % 4 = 0 by omega,
      show (4 * j + 1) / 4 = j by omega, show (4 * j + 1) % 4 = 1 by omega,
      show (4 * j + 2) / 4 = j by omega, show (4 * j + 2) % 4 = 2 by omega,
      show (4 * j + 3) / 4 = j by omega, show (4 * j + 3) % 4 = 3 by omega,
      show (24 - 0 * 8 : Nat) = 24 by norm_num, show (24 - 1 * 8 : Nat) = 16 by norm_num,
      show (24 - 2 * 8 : Nat) = 8 by norm_num, show (24 - 3 * 8 : Nat) = 0 by norm_num]
    have hW := getD_w32 hw j
    have h3 : (ws.getD j 0 >>> 24) &&& 255 = byte3 (ws.getD j 0) := and255_eq (byte3_lt hW)
    rw [h3]
    exact repack hW

theorem wordsToQuads_eq_map (n : Nat) (ws : List Nat) :
    wordsToQuads n ws = (List.range n).map (quadAt ws) := rfl

theorem wordsToQuads_length (n : Nat) (ws : List Nat) : (wordsToQuads n ws).length = n := by
  rw [wordsToQuads_eq_map]
  simp

theorem wordsToQuads_quadsToWords (qs : List Quad) :
    wordsToQuads qs.length (quadsToWords qs) = qs := by
  induction qs with
  | nil => rfl
  | cons q rest ih =>
    show wordsToQuads (rest.length + 1) (q.w0 :: q.w1 :: q.w2 :: q.w3 :: quadsToWords rest)
        = q :: rest
    rw [wordsToQuads_eq_map, List.range_succ_eq_map, List.map_cons, List.map_map]
    have hhead : quadAt (q.w0 :: q.w1 :: q.w2 :: q.w3 :: quadsToWords rest) 0 = q := rfl
    have htail : (List.range rest.length).map
          (quadAt (q.w0 :: q.w1 :: q.w2 :: q.w3 :: quadsToWords rest) ∘ Nat.succ)
        = (List.range rest.length).map (quadAt (quadsToWords rest)) := by
      apply List.map_congr_left
      intro j _
      exact quadAt_cons4 _ _ _ _ _ j
    rw [hhead, htail, ← wordsToQuads_eq_map, ih]

theorem quadsToWords_length : ∀ qs : List Quad, (quadsToWords qs).length = 4 * qs.length
  | [] => rfl
  | q :: rest => by
    show (quadsToWords rest).length + 1 + 1 + 1 + 1 = 4 * (rest.length + 1)
    rw [quadsToWords_length rest]
    ring

theorem quadsToWords_w32 : ∀ {qs : List Quad}, (∀ q ∈ qs, QB q) →
    ∀ w ∈ quadsToWords qs, IsW32 w := by
  intro qs
  induction qs with
  | nil =>
    intro _ w hw
    rw [show quadsToWords [] = [] from rfl] at hw
    simp at hw
  | cons q rest ih =>
    intro h w hw
    have hq := h q (by simp)
    rw [show quadsToWords (q :: rest) = q.w0 :: q.w1 :: q.w2 :: q.w3 :: quadsToWords rest
      from rfl] at hw
    rcases List.mem_cons.mp hw with h1 | hw
    · rw [h1]; exact hq.1
    rcases List.mem_cons.mp hw with h1 | hw
    · rw [h1]; exact hq.2.1
    rcases List.mem_cons.mp hw with h1 | hw
    · rw [h1]; exact hq.2.2.1
    rcases List.mem_cons.mp hw with h1 | hw
    · rw [h1]; exact hq.2.2.2
    exact ih (fun x hx => h x (List.mem_cons_of_mem _ hx)) w hw

theorem quadsToWords_wordsToQuads : ∀ (k : Nat) (l : List Nat), l.length = 4 * k →
    quadsToWords (wordsToQuads k l) = l := by
  intro k
  induction k with
  | zero =>
    intro l hl
    have hnil : l = [] := List.eq_nil_of_length_eq_zero (by omega)
    subst hnil
    rfl
  | succ k ih =>
    intro l hl
    match l with
    | a :: b :: c :: d :: rest =>
      have hrest : rest.length = 4 * k := by
        simp at hl
        omega
      rw [wordsToQuads_eq_map, List.range_succ_eq_map, List.map_cons, List.map_map]
      have htail : (List.range k).map (quadAt (a :: b :: c :: d :: rest) ∘ Nat.succ)
          = (List.range k).map (quadAt rest) := by
        apply List.map_congr_left
        intro j _
        exact quadAt_cons4 _ _ _ _ _ j
      rw [htail, ← wordsToQuads_eq_map]
      show a :: b :: c :: d :: quadsToWords (wordsToQuads k rest) = _
      rw [ih rest hrest]
    | [] => simp at hl
    | [a] => simp at hl; omega
    | [a, b] => simp at hl; omega
    | [a, b, c] => simp at hl; omega

theorem groupQuads_qb : ∀ (l : List Nat), (∀ w ∈ l, IsW32 w) → ∀ q ∈ groupQuads l, QB q
  | a :: b :: c :: d :: rest, h, q, hq => by
    rcases List.mem_cons.mp hq with h1 | h1
    · rw [h1]
      exact ⟨h a (by simp), h b (by simp), h c (by simp), h d (by simp)⟩
    · exact groupQuads_qb rest (fun w hw => h w (by simp [hw])) q h1
  | [], _, q, hq => by rw [show groupQuads [] = [] from rfl] at hq; simp at hq
  | [a], _, q, hq => by rw [show groupQuads [a] = [] from rfl] at hq; simp at hq
  | [a, b], _, q, hq => by rw [show groupQuads [a, b] = [] from rfl] at hq; simp at hq
  | [a, b, c], _, q, hq => by rw [show groupQuads [a, b, c] = [] from rfl] at hq; simp at hq

/-! ## CBC: lengths, bounds and the chained round trip -/

theorem cbcEncrypt_cons (rks : List Quad) (prev p : Quad) (rest : List Quad) :
    cbcEncrypt rks prev (p :: rest) =
      encryptBlk rks (addq p prev) :: cbcEncrypt rks (encryptBlk rks (addq p prev)) rest := rfl

theorem cbcDecrypt_cons (irks : List Quad) (prev c : Quad) (rest : List Quad) :
    cbcDecrypt irks prev (c :: rest) =
      addq (decryptBlk irks c) prev :: cbcDecrypt irks c rest := rfl

theorem cbcEncrypt_length (rks : List Quad) :
    ∀ (ps : List Quad) (prev : Quad), (cbcEncrypt rks prev ps).length = ps.length := by
  intro ps
  induction ps with
  | nil => intro prev; rfl
  | cons p rest ih =>
    intro prev
    rw [cbcEncrypt_cons, List.length_cons, ih, List.length_cons]

theorem cbcEncrypt_qb {rks : List Quad} (hrks : ∀ q ∈ rks, QB q) :
    ∀ (ps : List Quad) (prev : Quad), QB prev → (∀ p ∈ ps, QB p) →
      ∀ c ∈ cbcEncrypt rks prev ps, QB c := by
  intro ps
  induction ps with
  | nil =>
    intro prev _ _ c hc
    rw [show cbcEncrypt rks prev [] = [] from rfl] at hc
    simp at hc
  | cons p rest ih =>
    intro prev hprev hps c hc
    have hC : QB (encryptBlk rks (addq p prev)) :=
      encryptBlk_qb hrks (addq_qb (hps p (by simp)) hprev)
    rw [cbcEncrypt_cons] at hc
    rcases List.mem_cons.mp hc with h1 | h1
    · rw [h1]
      exact hC
    · exact ih (encryptBlk rks (addq p prev)) hC
        (fun x hx => hps x (List.mem_cons_of_mem _ hx)) c h1

theorem cbc_roundtrip (rks irks : List Quad)
    (hinv : ∀ q, QB q → decryptBlk irks (encryptBlk rks q) = q)
    (henc : ∀ q, QB q → QB (encryptBlk rks q)) :
    ∀ (ps : List Quad) (prev : Quad), QB prev → (∀ p ∈ ps, QB p) →
      cbcDecrypt irks prev (cbcEncrypt rks prev ps) = ps := by
  intro ps
  induction ps with
  | nil => intro prev _ _; rfl
  | cons p rest ih =>
    intro prev hprev hps
    rw [cbcEncrypt_cons, cbcDecrypt_cons]
    have hpQ : QB (addq p prev) := addq_qb (hps p (by simp)) hprev
    rw [hinv (addq p prev) hpQ, addq_cancel,
      ih (encryptBlk rks (addq p prev)) (henc _ hpQ)
        (fun x hx => hps x (List.mem_cons_of_mem _ hx))]

/-! ## PKCS#7 padding facts -/

theorem padBytes_bytes {l : List Nat} (hb : Bytes l) : Bytes (padBytes l) := by
  intro b hbm
  rcases List.mem_append.mp hbm with h | h
  · exact hb b h
  · rw [List.eq_of_mem_replicate h]
    omega

theorem padBytes_length (l : List Nat) :
    (padBytes l).length = l.length + (16 - l.length % 16) := by
  unfold padBytes
  simp

theorem padBytes_last (l : List Nat) :
    (padBytes l).getD ((padBytes l).length - 1) 0 = 16 - l.length % 16 := by
  rw [padBytes_length]
  unfold padBytes
  rw [show l.length + (16 - l.length % 16) - 1 = l.length + (16 - l.length % 16 - 1) by omega,
    List.getD_append_right _ _ _ _ (by omega), Nat.add_sub_cancel_left,
    List.getD_eq_getElem?_getD, List.getElem?_replicate]
  rw [if_pos (by omega)]
  rfl

theorem padBytes_take (l : List Nat) : (padBytes l).take l.length = l := by
  unfold padBytes
  exact List.take_left _ _

/-! ## UTF-8 encoding facts -/

theorem utf8EncodeChar_bytes {c : Nat} (h : c < 65536) : ∀ b ∈ utf8EncodeChar c, b < 256 := by
  intro b hb
  unfold utf8EncodeChar at hb
  split at hb
  · rw [List.mem_singleton.mp hb]
    omega
  · split at hb
    · rcases List.mem_cons.mp hb with h1 | h1
      · rw [h1]
        have hs : c >>> 6 = c / 64 := Nat.shiftRight_eq_div_pow c 6
        exact (show (192 : Nat) ||| (c >>> 6) < 2 ^ 8 from
          Nat.or_lt_two_pow (by omega) (by omega))
      · rw [List.mem_singleton.mp h1]
        have ha : c &&& 63 ≤ 63 := Nat.and_le_right
        exact (show (128 : Nat) ||| (c &&& 63) < 2 ^ 8 from
          Nat.or_lt_two_pow (by omega) (by omega))
    · rcases List.mem_cons.mp hb with h1 | h1
      · rw [h1]
        have hs : c >>> 12 = c / 4096 := Nat.shiftRight_eq_div_pow c 12
        exact (show (224 : Nat) ||| (c >>> 12) < 2 ^ 8 from
          Nat.or_lt_two_pow (by omega) (by omega))
      rcases List.mem_cons.mp h1 with h2 | h2
      · rw [h2]
        have ha : (c >>> 6) &&& 63 ≤ 63 := Nat.and_le_right
        exact (show (128 : Nat) ||| ((c >>> 6) &&& 63) < 2 ^ 8 from
          Nat.or_lt_two_pow (by omega) (by omega))
      · rw [List.mem_singleton.mp h2]
        have ha : c &&& 63 ≤ 63 := Nat.and_le_right
        exact (show (128 : Nat) ||| (c &&& 63) < 2 ^ 8 from
          Nat.or_lt_two_pow (by omega) (by omega))

theorem utf8Encode_bytes : ∀ {cs : List Nat}, (∀ c ∈ cs, c < 65536) → Bytes (utf8Encode cs) := by
  intro cs
  induction cs with
  | nil => intro _ b hb; simp [utf8Encode] at hb
  | cons c rest ih =>
    intro h b hb
    rw [show utf8Encode (c :: rest) = utf8EncodeChar c ++ utf8Encode rest from rfl] at hb
    rcases List.mem_append.mp hb with h1 | h1
    · exact utf8EncodeChar_bytes (h c (by simp)) b h1
    · exact ih (fun x hx => h x (List.mem_cons_of_mem _ hx)) b h1

theorem utf8Encode_ascii : ∀ {cs : List Nat}, Ascii cs → utf8Encode cs = cs := by
  intro cs
  induction cs with
  | nil => intro _; rfl
  | cons c rest ih =>
    intro h
    show utf8EncodeChar c ++ utf8Encode rest = c :: rest
    rw [ih (fun x hx => h x (List.mem_cons_of_mem _ hx))]
    unfold utf8EncodeChar
    rw [if_pos (h c (by simp))]
    rfl

theorem deriveIvQuad_qb {key : List Nat} (h : ∀ c ∈ key, c < 65536) :
    QB (deriveIvQuad key) := by
  have hb : Bytes (utf8Encode (key.take 16)) :=
    utf8Encode_bytes (fun c hc => h c (List.take_subset _ _ hc))
  exact ⟨getD_w32 (bytesToWords_w32 hb) _, getD_w32 (bytesToWords_w32 hb) _,
    getD_w32 (bytesToWords_w32 hb) _, getD_w32 (bytesToWords_w32 hb) _⟩

/-! ## Evaluating the two pipelines, and the full round trip -/

theorem exceptBind_ok (x : List Nat) (f : List Nat → Except CryptError (List Nat)) :
    (Except.ok x : Except CryptError (List Nat)).bind f = f x := rfl

theorem exceptMap_ok {β : Type} (x : List Nat) (f : List Nat → β) :
    (Except.ok x : Except CryptError (List Nat)).map f = Except.ok (f x) := rfl

theorem exceptMapBind_ok (x : List Nat) (f : List Nat → List Nat)
    (g : List Nat → Except CryptError (List Nat)) :
    ((Except.ok x : Except CryptError (List Nat)).map f).bind g = g (f x) := rfl

theorem bytesToWords_wordsToBytes2 {ws : List Nat} (hw : ∀ w ∈ ws, IsW32 w) (L : Nat)
    (hL : L = 4 * ws.length) : bytesToWords (wordsToBytes ws L) = ws := by
  rw [hL]
  exact bytesToWords_wordsToBytes hw

theorem wordsToQuads_quadsToWords2 (qs : List Quad) (n : Nat) (hn : n = qs.length) :
    wordsToQuads n (quadsToWords qs) = qs := by
  rw [hn]
  exact wordsToQuads_quadsToWords qs

theorem aesCbcEncrypt_eq (plain key : List Nat)
    (hv : aesValidKey (deriveKeyBytes key) = true) :
    aesCbcEncrypt plain key = Except.ok (wordsToBytes (quadsToWords
      (cbcEncrypt (groupQuads (keyExpansion (bytesToWords (deriveKeyBytes key))
          ((deriveKeyBytes key).length / 4)))
        (deriveIvQuad key)
        (wordsToQuads ((padBytes plain).length / 16) (bytesToWords (padBytes plain)))))
      (padBytes plain).length) := by
  simp only [aesCbcEncrypt]
  rw [if_pos hv]

/-- The cipher layer inverts itself: CBC-decrypting a CBC encryption with the
same key material recovers the plaintext, for every key the crypto-js loops
process exactly (byte count a multiple of 4, at least 16). -/
theorem aesCbc_roundTrip {plain key : List Nat} (hp : Bytes plain)
    (hkey : ∀ c ∈ key, c < 65536) (hv : aesValidKey (deriveKeyBytes key) = true) :
    (aesCbcEncrypt plain key).bind (fun c => aesCbcDecrypt c key) = Except.ok plain := by
  have hkb : Bytes (deriveKeyBytes key) :=
    utf8Encode_bytes (fun c hc => hkey c (List.drop_subset _ _ (List.take_subset _ _ hc)))
  have hkw : ∀ w ∈ bytesToWords (deriveKeyBytes key), IsW32 w := bytesToWords_w32 hkb
  have hrksQB : ∀ q ∈ groupQuads (keyExpansion (bytesToWords (deriveKeyBytes key))
      ((deriveKeyBytes key).length / 4)), QB q :=
    groupQuads_qb _ (keyExpansion_w32 hkw _)
  have hivQB : QB (deriveIvQuad key) := deriveIvQuad_qb hkey
  have hpadB : Bytes (padBytes plain) := padBytes_bytes hp
  have hpadlen : (padBytes plain).length = plain.length + (16 - plain.length % 16) :=
    padBytes_length plain
  have hpadmod : (padBytes plain).length % 16 = 0 := by omega
  have hbw : ∀ w ∈ bytesToWords (padBytes plain), IsW32 w := bytesToWords_w32 hpadB
  have hblocksQB : ∀ q ∈ wordsToQuads ((padBytes plain).length / 16)
      (bytesToWords (padBytes plain)), QB q := by
    intro q hq
    rw [wordsToQuads_eq_map] at hq
    obtain ⟨i, _, rfl⟩ := List.mem_map.mp hq
    exact quadAt_qb hbw i
  have hcqQB : ∀ q ∈ cbcEncrypt (groupQuads (keyExpansion (bytesToWords (deriveKeyBytes key))
        ((deriveKeyBytes key).length / 4))) (deriveIvQuad key)
      (wordsToQuads ((padBytes plain).length / 16) (bytesToWords (padBytes plain))), QB q :=
    cbcEncrypt_qb hrksQB _ _ hivQB hblocksQB
  have hwsW : ∀ w ∈ quadsToWords (cbcEncrypt (groupQuads (keyExpansion
        (bytesToWords (deriveKeyBytes key)) ((deriveKeyBytes key).length / 4)))
      (deriveIvQuad key) (wordsToQuads ((padBytes plain).length / 16)
        (bytesToWords (padBytes plain)))), IsW32 w := quadsToWords_w32 hcqQB
  have hcqlen : (cbcEncrypt (groupQuads (keyExpansion (bytesToWords (deriveKeyBytes key))
        ((deriveKeyBytes key).length / 4))) (deriveIvQuad key)
      (wordsToQuads ((padBytes plain).length / 16) (bytesToWords (padBytes plain)))).length
      = (padBytes plain).length / 16 := by
    rw [cbcEncrypt_length, wordsToQuads_length]
  have hwslen : (quadsToWords (cbcEncrypt (groupQuads (keyExpansion
        (bytesToWords (deriveKeyBytes key)) ((deriveKeyBytes key).length / 4)))
      (deriveIvQuad key) (wordsToQuads ((padBytes plain).length / 16)
        (bytesToWords (padBytes plain))))).length = 4 * ((padBytes plain).length / 16) := by
    rw [quadsToWords_length, hcqlen]
  rw [aesCbcEncrypt_eq plain key hv, exceptBind_ok]
  simp only [aesCbcDecrypt]
  rw [if_pos hv, wordsToBytes_length,
    show ((padBytes plain).length + 15) / 16 = (padBytes plain).length / 16 by omega,
    bytesToWords_wordsToBytes2 hwsW (padBytes plain).length (by rw [hwslen]; omega),
    wordsToQuads_quadsToWords2 (cbcEncrypt (groupQuads (keyExpansion
        (bytesToWords (deriveKeyBytes key)) ((deriveKeyBytes key).length / 4)))
      (deriveIvQuad key) (wordsToQuads ((padBytes plain).length / 16)
        (bytesToWords (padBytes plain)))) ((padBytes plain).length / 16) (by rw [hcqlen]),
    cbc_roundtrip (groupQuads (keyExpansion (bytesToWords (deriveKeyBytes key))
        ((deriveKeyBytes key).length / 4)))
      (groupQuads (invKeyExpansion (keyExpansion (bytesToWords (deriveKeyBytes key))
        ((deriveKeyBytes key).length / 4)) (((deriveKeyBytes key).length / 4 + 6 + 1) * 4)))
      (fun q hq => blockRoundTrip hkw ((deriveKeyBytes key).length / 4) q hq)
      (fun q hq => encryptBlk_qb hrksQB hq)
      (wordsToQuads ((padBytes plain).length / 16) (bytesToWords (padBytes plain)))
      (deriveIvQuad key) hivQB hblocksQB,
    quadsToWords_wordsToQuads ((padBytes plain).length / 16) (bytesToWords (padBytes plain))
      (by rw [bytesToWords_length]; omega),
    if_neg (show ¬((padBytes plain).length == 0) = true by
      simp only [beq_iff_eq]
      omega)]
  have hnpad : (bytesToWords (padBytes plain)).getD (((padBytes plain).length - 1) / 4) 0
      &&& 255 = 16 - plain.length % 16 := by
    rw [bytesToWords_getD]
    have h255 : pack ((padBytes plain).getD (4 * (((padBytes plain).length - 1) / 4)) 0)
        ((padBytes plain).getD (4 * (((padBytes plain).length - 1) / 4) + 1) 0)
        ((padBytes plain).getD (4 * (((padBytes plain).length - 1) / 4) + 2) 0)
        ((padBytes plain).getD (4 * (((padBytes plain).length - 1) / 4) + 3) 0) &&& 255
        = (padBytes plain).getD (4 * (((padBytes plain).length - 1) / 4) + 3) 0 :=
      byte0_pack (getD_lt256 hpadB _) (getD_lt256 hpadB _) (getD_lt256 hpadB _)
        (getD_lt256 hpadB _)
    rw [h255,
      show 4 * (((padBytes plain).length - 1) / 4) + 3 = (padBytes plain).length - 1 by omega]
    exact padBytes_last plain
  rw [hnpad, if_pos (show 16 - plain.length % 16 ≤ (padBytes plain).length by omega),
    if_neg (show ¬jsFalsy (wordsToBytes (bytesToWords (padBytes plain))
      ((padBytes plain).length - (16 - plain.length % 16))) = true by simp [jsFalsy]),
    show (padBytes plain).length - (16 - plain.length % 16) = plain.length by omega,
    wordsToBytes_bytesToWords hpadB plain.length (by omega), padBytes_take]

/-! ## Frame handling of `Encrypt.decryptText` -/

theorem frame_unwrap (ct key : List Nat) :
    Encrypt.decryptText (MAGIC_WORDS ++ ct) key = aesCbcDecrypt ct key := by
  unfold Encrypt.decryptText
  rw [if_neg (show ¬(MAGIC_WORDS ++ ct).length < 4 by simp [MAGIC_WORDS]),
    if_neg (show ¬(pack ((MAGIC_WORDS ++ ct).getD 0 0) ((MAGIC_WORDS ++ ct).getD 1 0)
        ((MAGIC_WORDS ++ ct).getD 2 0) ((MAGIC_WORDS ++ ct).getD 3 0) ≠ MAGIC_WORD) by
      intro hne
      apply hne
      rw [List.getD_append _ _ _ _ (by decide), List.getD_append _ _ _ _ (by decide),
        List.getD_append _ _ _ _ (by decide), List.getD_append _ _ _ _ (by decide)]
      decide),
    List.drop_left' (show MAGIC_WORDS.length = 4 from rfl)]

theorem encryptText_ok (P K : List Nat) (hv : aesValidKey (deriveKeyBytes K) = true) :
    Encrypt.encryptText P K = Except.ok (MAGIC_WORDS ++ wordsToBytes (quadsToWords
      (cbcEncrypt (groupQuads (keyExpansion (bytesToWords (deriveKeyBytes K))
          ((deriveKeyBytes K).length / 4)))
        (deriveIvQuad K)
        (wordsToQuads ((padBytes P).length / 16) (bytesToWords (padBytes P)))))
      (padBytes P).length) := by
  unfold Encrypt.encryptText
  rw [aesCbcEncrypt_eq P K hv]
  rfl

/-- The whole `encryptText`/`decryptText` pipeline round trips whenever the
derived key bytes are a size the crypto-js loops process exactly. -/
theorem frameRoundTrip {P K : List Nat} (hp : Bytes P) (hkey : ∀ c ∈ K, c < 65536)
    (hv : aesValidKey (deriveKeyBytes K) = true) :
    (Encrypt.encryptText P K).bind (fun buf => Encrypt.decryptText buf K)
      = Except.ok P := by
  unfold Encrypt.encryptText
  rw [aesCbcEncrypt_eq P K hv, exceptMapBind_ok, frame_unwrap]
  have hm := aesCbc_roundTrip hp hkey hv
  rw [aesCbcEncrypt_eq P K hv, exceptBind_ok] at hm
  exact hm

/-- A 48-character (or longer) ASCII key string derives exactly 32 cipher-key
bytes, a supported size. -/
theorem ascii48_valid {K : List Nat} (hk : Ascii K) (hlen : 48 ≤ K.length) :
    aesValidKey (deriveKeyBytes K) = true := by
  have hkbeq : deriveKeyBytes K = (K.drop 16).take 32 :=
    utf8Encode_ascii (fun c hc => hk c (List.drop_subset _ _ (List.take_subset _ _ hc)))
  have hkblen : (deriveKeyBytes K).length = 32 := by
    rw [hkbeq, List.length_take, List.length_drop]
    omega
  unfold aesValidKey
  rw [hkblen]
  decide

theorem ascii_chars {K : List Nat} (hk : Ascii K) : ∀ c ∈ K, c < 65536 :=
  fun c hc => by have := hk c hc; omega

theorem encrypt_frame_length (P K : List Nat) (hv : aesValidKey (deriveKeyBytes K) = true) :
    (Encrypt.encryptText P K).map List.length
      = Except.ok (4 + 16 * ((P.length + 16) / 16)) := by
  rw [encryptText_ok P K hv, exceptMap_ok]
  have hl : (MAGIC_WORDS ++ wordsToBytes (quadsToWords
      (cbcEncrypt (groupQuads (keyExpansion (bytesToWords (deriveKeyBytes K))
          ((deriveKeyBytes K).length / 4)))
        (deriveIvQuad K)
        (wordsToQuads ((padBytes P).length / 16) (bytesToWords (padBytes P)))))
      (padBytes P).length).length = 4 + 16 * ((P.length + 16) / 16) := by
    rw [List.length_append, wordsToBytes_length, show MAGIC_WORDS.length = 4 from rfl]
    have hpl := padBytes_length P
    omega
  rw [hl]

theorem encrypt_frame_marker (P K : List Nat) (hv : aesValidKey (deriveKeyBytes K) = true) :
    (Encrypt.encryptText P K).map (List.take 4) = Except.ok MAGIC_WORDS := by
  rw [encryptText_ok P K hv, exceptMap_ok,
    List.take_left' (show MAGIC_WORDS.length = 4 from rfl)]

/-! ## Error behaviour of the decrypt pipeline -/

theorem aesCbcDecrypt_ne_checkKey (ct key : List Nat) :
    aesCbcDecrypt ct key ≠ Except.error CryptError.checkKey := by
  simp only [aesCbcDecrypt, jsFalsy, Bool.false_eq_true, if_false]
  repeat' split
  all_goals simp

theorem aesCbcDecrypt_ne_invalid (ct key : List Nat) :
    aesCbcDecrypt ct key ≠ Except.error CryptError.invalidCiphertext := by
  simp only [aesCbcDecrypt, jsFalsy, Bool.false_eq_true, if_false]
  repeat' split
  all_goals simp

theorem aesCbcEncrypt_cases (plain key : List Nat) :
    aesCbcEncrypt plain key = Except.error CryptError.unsupportedKeyMaterial ∨
    ∃ ct, aesCbcEncrypt plain key = Except.ok ct := by
  simp only [aesCbcEncrypt]
  split
  · right
    exact ⟨_, rfl⟩
  · left
    rfl

/-! ## Additional error-behaviour helpers shared by the claim theorems -/

theorem exceptMapBind_error (e : CryptError) (f : List Nat → List Nat)
    (g : List Nat → Except CryptError (List Nat)) :
    ((Except.error e : Except CryptError (List Nat)).map f).bind g = Except.error e := rfl

theorem decryptText_ne_checkKey (buffer key : List Nat) :
    Encrypt.decryptText buffer key ≠ Except.error CryptError.checkKey := by
  unfold Encrypt.decryptText
  split
  · decide
  · split
    · decide
    · exact aesCbcDecrypt_ne_checkKey _ _

/-! ## Concrete test vectors

`hello` is the UTF-8 byte content of the string "hello world"; `k48a` is the 48
ASCII characters `0123...` (code points 48..95); `k36` is the 36 ASCII
characters `A`..(code points 65..100), so its derived cipher key is 20 bytes;
`c5K2` agrees with `k48a` except in its last (48th) character, so it is a
distinct 48-character ASCII key. -/

def hello : List Nat := [104, 101, 108, 108, 111, 32, 119, 111, 114, 108, 100]

def k48a : List Nat := (List.range 48).map (fun i => 48 + i)

def k36 : List Nat := (List.range 36).map (fun i => 65 + i)

def c5K2 : List Nat := (List.range 48).map (fun j => if j == 47 then 49 else 48 + j)

/-! ## The specification claims -/

/-- C1: Round trip — for every plaintext byte buffer `P` (any length, the empty
buffer included) and every ASCII key string `K` of length at least 48,
`decryptText` of `encryptText P K` with the same `K` returns exactly `P`. -/
theorem C1_roundTrip {P K : List Nat} (hp : Bytes P) (hk : Ascii K)
    (hlen : 48 ≤ K.length) :
    (Encrypt.encryptText P K).bind (fun buf => Encrypt.decryptText buf K)
      = Except.ok P :=
  frameRoundTrip hp (ascii_chars hk) (ascii48_valid hk hlen)

theorem C1_roundTrip_witness :
    Bytes hello ∧ Ascii k48a ∧ 48 ≤ k48a.length ∧
    (Encrypt.encryptText hello k48a).bind (fun buf => Encrypt.decryptText buf k48a)
      = Except.ok hello :=
  ⟨by decide, by decide, by decide, C1_roundTrip (by decide) (by decide) (by decide)⟩

/-- C2: amended — crypto-js performs no key-size validation at all: an ASCII
key string whose derived cipher key is 20 bytes (not one of the AES sizes
16/24/32) is fed to the generalized Rijndael key-schedule loop, `encryptText`
completes and returns a frame (no `KeyDerivationError` exists anywhere in the
pipeline), and `decryptText` with the same key even recovers the plaintext. -/
theorem C2_unsupportedKeySize_silentSuccess {P K : List Nat} (hp : Bytes P)
    (hk : Ascii K) (hlen : (deriveKeyBytes K).length = 20) :
    (Encrypt.encryptText P K).bind (fun buf => Encrypt.decryptText buf K)
      = Except.ok P := by
  have hv : aesValidKey (deriveKeyBytes K) = true := by
    unfold aesValidKey
    rw [hlen]
    decide
  exact frameRoundTrip hp (ascii_chars hk) hv

theorem C2_witness :
    Bytes hello ∧ Ascii k36 ∧ (deriveKeyBytes k36).length = 20 ∧
    (Encrypt.encryptText hello k36).bind (fun buf => Encrypt.decryptText buf k36)
      = Except.ok hello :=
  ⟨by decide, by decide, by decide,
    C2_unsupportedKeySize_silentSuccess (by decide) (by decide) (by decide)⟩

/-- C2, counterexample to the original claim: the 36-character ASCII key `k36`
derives 20 cipher-key bytes — `20 ∉ {16, 24, 32}` — yet `encryptText` completes
and `decryptText` returns the original plaintext: no error of any kind is
raised for this wrong-length key material. -/
theorem C2_counterexample :
    (deriveKeyBytes k36).length = 20 ∧
    (Encrypt.encryptText hello k36).bind (fun buf => Encrypt.decryptText buf k36)
      = Except.ok hello := by
  constructor
  · decide
  · decide

/-- C3: frame validation — `decryptText` rejects buffers shorter than 4 bytes
with the invalid-ciphertext error, rejects buffers whose first word differs
from the magic marker with the same error, and otherwise runs the cipher on
exactly the bytes from offset 4 onward. -/
theorem C3_frameValidation (buffer key : List Nat) :
    (buffer.length < 4 →
      Encrypt.decryptText buffer key = Except.error CryptError.invalidCiphertext) ∧
    (4 ≤ buffer.length →
      pack (buffer.getD 0 0) (buffer.getD 1 0) (buffer.getD 2 0) (buffer.getD 3 0)
        ≠ MAGIC_WORD →
      Encrypt.decryptText buffer key = Except.error CryptError.invalidCiphertext) ∧
    (4 ≤ buffer.length →
      pack (buffer.getD 0 0) (buffer.getD 1 0) (buffer.getD 2 0) (buffer.getD 3 0)
        = MAGIC_WORD →
      Encrypt.decryptText buffer key = aesCbcDecrypt (buffer.drop 4) key) := by
  refine ⟨fun h => ?_, fun h hm => ?_, fun h hm => ?_⟩
  · unfold Encrypt.decryptText
    rw [if_pos h]
  · unfold Encrypt.decryptText
    rw [if_neg (by omega), if_pos hm]
  · unfold Encrypt.decryptText
    rw [if_neg (by omega), if_neg (fun hc => hc hm)]

theorem C3_frameValidation_witness :
    (([0, 1] : List Nat).length < 4 ∧
      Encrypt.decryptText [0, 1] [] = Except.error CryptError.invalidCiphertext) ∧
    (4 ≤ ([1, 2, 3, 4] : List Nat).length ∧ pack 1 2 3 4 ≠ MAGIC_WORD ∧
      Encrypt.decryptText [1, 2, 3, 4] [] = Except.error CryptError.invalidCiphertext) ∧
    (4 ≤ MAGIC_WORDS.length ∧
      pack (MAGIC_WORDS.getD 0 0) (MAGIC_WORDS.getD 1 0) (MAGIC_WORDS.getD 2 0)
        (MAGIC_WORDS.getD 3 0) = MAGIC_WORD ∧
      Encrypt.decryptText MAGIC_WORDS [] = aesCbcDecrypt (MAGIC_WORDS.drop 4) []) :=
  ⟨⟨by decide, (C3_frameValidation [0, 1] []).1 (by decide)⟩,
   ⟨by decide, by decide, (C3_frameValidation [1, 2, 3, 4] []).2.1 (by decide) (by decide)⟩,
   ⟨by decide, by decide, (C3_frameValidation MAGIC_WORDS []).2.2 (by decide) (by decide)⟩⟩

/-- C4: frame shape — for every plaintext `P` and 48-character ASCII key, the
frame is the 4 marker bytes 00 02 73 DB followed by the block-aligned padded
ciphertext, of total length `4 + 16 * ((P.length + 16) / 16)` (so at least 20),
and decrypting it with the same key returns `P`; the witness instantiates the
concrete "hello world" case with its 20-byte frame. -/
theorem C4_frameShape {P K : List Nat} (hp : Bytes P) (hk : Ascii K)
    (hlen : K.length = 48) :
    (Encrypt.encryptText P K).map List.length
        = Except.ok (4 + 16 * ((P.length + 16) / 16)) ∧
    (Encrypt.encryptText P K).map (List.take 4) = Except.ok MAGIC_WORDS ∧
    (Encrypt.encryptText P K).bind (fun buf => Encrypt.decryptText buf K)
        = Except.ok P := by
  have hv : aesValidKey (deriveKeyBytes K) = true := ascii48_valid hk (by omega)
  exact ⟨encrypt_frame_length P K hv, encrypt_frame_marker P K hv,
    frameRoundTrip hp (ascii_chars hk) hv⟩

theorem C4_frameShape_witness :
    Bytes hello ∧ Ascii k48a ∧ k48a.length = 48 ∧
    4 + 16 * ((hello.length + 16) / 16) = 20 ∧
    ((Encrypt.encryptText hello k48a).map List.length
        = Except.ok (4 + 16 * ((hello.length + 16) / 16)) ∧
      (Encrypt.encryptText hello k48a).map (List.take 4) = Except.ok MAGIC_WORDS ∧
      (Encrypt.encryptText hello k48a).bind (fun buf => Encrypt.decryptText buf k48a)
        = Except.ok hello) :=
  ⟨by decide, by decide, by decide, by decide,
    C4_frameShape (by decide) (by decide) (by decide)⟩

/-- C5: amended — decrypting with a wrong key never raises the check-key
`DecryptionError`: the falsy check guarding that error is unreachable, so for
every plaintext and every pair of key strings the decrypt-of-encrypt chain
either returns bytes (typically garbage, see the counterexample) or fails for
a reason other than the check-key error (frame mismatch, unsupported material,
or the unpad `RangeError`); it never produces the error the spec predicts. -/
theorem C5_wrongKey_noDecryptionError (P K1 K2 : List Nat) :
    (Encrypt.encryptText P K1).bind (fun buf => Encrypt.decryptText buf K2)
      ≠ Except.error CryptError.checkKey := by
  rcases aesCbcEncrypt_cases P K1 with h | ⟨ct, h⟩
  · unfold Encrypt.encryptText
    rw [h, exceptMapBind_error]
    decide
  · unfold Encrypt.encryptText
    rw [h, exceptMapBind_ok]
    exact decryptText_ne_checkKey _ _

/-- C5, counterexample to the original claim: `c5K2` is a 48-character ASCII
key distinct from `k48a`, and decrypting the "hello world" frame of `k48a`
with `c5K2` raises no error at all — it silently returns the 4 garbage bytes
`[33, 72, 37, 173]` (and in particular not the plaintext). -/
theorem C5_counterexample :
    k48a ≠ c5K2 ∧
    (Encrypt.encryptText hello k48a).bind (fun buf => Encrypt.decryptText buf c5K2)
      = Except.ok [33, 72, 37, 173] := by
  constructor
  · decide
  · decide

/-- C6: the two format variants differ only by the marker — the canonical
`Encrypt.encryptText` output is exactly the 4 magic bytes prepended to the
marker-less legacy variant's output on the same plaintext and key. -/
theorem C6_variants (P K : List Nat) :
    Encrypt.encryptText P K
      = (Legacy.encryptText P K).map (fun ct => MAGIC_WORDS ++ ct) := rfl

/-- C7: determinism — both transforms are pure functions of the plaintext and
the key string (the IV is derived from the key, never randomized), so two
calls with identical inputs return identical results. -/
theorem C7_deterministic (P1 P2 K1 K2 : List Nat) (hP : P1 = P2) (hK : K1 = K2) :
    Encrypt.encryptText P1 K1 = Encrypt.encryptText P2 K2 ∧
    Encrypt.decryptText P1 K1 = Encrypt.decryptText P2 K2 := by
  rw [hP, hK]
  exact ⟨rfl, rfl⟩

theorem C7_deterministic_witness :
    hello = hello ∧ k48a = k48a ∧
    (Encrypt.encryptText hello k48a = Encrypt.encryptText hello k48a ∧
      Encrypt.decryptText hello k48a = Encrypt.decryptText hello k48a) :=
  ⟨rfl, rfl, C7_deterministic hello hello k48a k48a rfl rfl⟩

/-- C8: the post-decrypt falsiness check is unreachable — an `ArrayBuffer` is
always truthy in JavaScript, so `decryptText` never raises the check-key
("请检查密钥是否正确") error, on any input buffer and any key. -/
theorem C8_checkKey_unreachable (buffer key : List Nat) :
    Encrypt.decryptText buffer key ≠ Except.error CryptError.checkKey :=
  decryptText_ne_checkKey buffer key

/-- C9: a marker-only frame passes validation — on the exact 4-byte buffer
00 02 73 DB, `decryptText` raises no invalid-ciphertext error: both frame
checks pass and the empty ciphertext left after stripping the marker is handed
to the cipher. -/
theorem C9_markerOnly (key : List Nat) :
    Encrypt.decryptText MAGIC_WORDS key = aesCbcDecrypt [] key ∧
    Encrypt.decryptText MAGIC_WORDS key ≠ Except.error CryptError.invalidCiphertext := by
  have he : Encrypt.decryptText MAGIC_WORDS key = aesCbcDecrypt [] key := by
    unfold Encrypt.decryptText
    rw [if_neg (by decide), if_neg (by decide)]
    rfl
  refine ⟨he, ?_⟩
  rw [he]
  exact aesCbcDecrypt_ne_invalid [] key

/-- C10: the empty plaintext is handled, not rejected — with a 48-character
ASCII key, `encryptText []` succeeds with a 20-byte frame (marker plus one
all-padding block) and `decryptText` of that frame returns the empty buffer. -/
theorem C10_emptyPlaintext {K : List Nat} (hk : Ascii K) (hlen : K.length = 48) :
    (Encrypt.encryptText [] K).map List.length = Except.ok 20 ∧
    (Encrypt.encryptText [] K).bind (fun buf => Encrypt.decryptText buf K)
      = Except.ok [] := by
  have hv : aesValidKey (deriveKeyBytes K) = true := ascii48_valid hk (by omega)
  constructor
  · have h := encrypt_frame_length [] K hv
    rw [h]
    norm_num
  · exact frameRoundTrip (by decide) (ascii_chars hk) hv

theorem C10_emptyPlaintext_witness :
    Ascii k48a ∧ k48a.length = 48 ∧
    ((Encrypt.encryptText [] k48a).map List.length = Except.ok 20 ∧
      (Encrypt.encryptText [] k48a).bind (fun buf => Encrypt.decryptText buf k48a)
        = Except.ok []) :=
  ⟨by decide, by decide, C10_emptyPlaintext (by decide) (by decide)⟩
